import Mathlib

/-!
# CTC: futures as coroutines (`coawait.cpp`) and the character generator (`main.cpp`)

A shallow embedding of the two programs.

* `coawait.cpp` makes `std::future<T>` a coroutine return type (its
  `promise_type` is a `std::promise<T>`) and makes `std::future<T>` awaitable by
  spawning one detached thread per suspended `co_await`.
* `main.cpp` enumerates the characters of a string with a generator coroutine
  that holds the string by reference.

The state of a run is a `World`: the shared states of all promise/future pairs,
the detached waiter threads, and the trace of observable events.  A coroutine
body is a tree of statements (`Body`); `run` is the coroutine driver that the
C++ language wraps around a body (promise calls, `co_await` expansion), and
`step` is one move of the environment: the OS scheduling a waiter thread, an
external producer fulfilling its promise, or the main thread calling a coroutine.

Granularity.  A thread runs from one suspension point to the next as one move:
moves of different threads interleave in any order (`exec` takes an arbitrary
schedule), statements inside a move do not.  The functions of the awaiter are
also stated on their own, on an arbitrary world, so that `await_suspend` on a
future that became ready after `await_ready` said no is covered.

Not modelled: a second `get()` on the same future (undefined in C++), failure
to create a thread, and the end of the process while waiters are alive.
-/

namespace Coawait

/-! ## Exceptions and outcomes -/

/-- Error codes of `std::future_error`. -/
inductive future_errc where
  | broken_promise
  | future_already_retrieved
  | promise_already_satisfied
  | no_state
  deriving DecidableEq

/-- What a `std::exception_ptr` points to: an exception thrown by program code,
carrying a payload, or a `std::future_error` raised by the library. -/
inductive Exc (E : Type) where
  | user (payload : E)
  | future_error (code : future_errc)
  deriving DecidableEq

/-- A result stored in a shared state: a value or an exception. -/
inductive Outcome (T E : Type) where
  | value (v : T)
  | exception (e : Exc E)
  deriving DecidableEq

/-- Result of `std::future::wait_for`. -/
inductive future_status where
  | ready
  | timeout
  | deferred
  deriving DecidableEq

/-- The two standard trivial awaitables. -/
inductive Suspend where
  | suspend_never
  | suspend_always
  deriving DecidableEq

/-- The copy (or move) constructor of the result type, which may throw.  It is
what `std::promise<T>::set_value` runs to store the value. -/
class CopyConstructible (T E : Type) where
  copy : T → Except (Exc E) T

/-- Copying an `int` cannot throw. -/
instance instCopyInt (E : Type) : CopyConstructible Int E := ⟨fun v => .ok v⟩

/-- Nothing to copy for `void`. -/
instance instCopyUnit (E : Type) : CopyConstructible Unit E := ⟨fun v => .ok v⟩

/-! ## Coroutine bodies -/

/-- Statements of a coroutine body, in continuation form.  Futures are named by
the index of their shared state in the world.
* `co_return v` ends the body with a value;
* `throw e` is an exception leaving the body;
* `sleep_for` and `cout` are the two effects used in `coawait.cpp`;
* `call callee k` calls a coroutine function and binds the future it returns;
* `co_await f k` awaits the future `f`; `k` receives what `await_resume`
  produces, a value or an exception raised at the suspension point (a body
  without a handler continues with `throw e` on `exception e`). -/
inductive Body (T E : Type) where
  | co_return (v : T)
  | throw (e : Exc E)
  | sleep_for (secs : Nat) (k : Body T E)
  | cout (text : String) (v : T) (k : Body T E)
  | call (callee : Body T E) (k : Nat → Body T E)
  | co_await (f : Nat) (k : Outcome T E → Body T E)

/-- A `std::coroutine_handle`: the promise of the suspended coroutine and the
code after its suspension point. -/
structure Handle (T E : Type) where
  promise : Nat
  resume : Outcome T E → Body T E

/-! ## The world -/

/-- Who holds the producer side of a shared state. -/
inductive Owner where
  | task
  | external
  deriving DecidableEq

/-- The shared state of one promise/future pair; `state = none` is "not ready". -/
structure Chan (T E : Type) where
  owner : Owner
  state : Option (Outcome T E)
  deriving DecidableEq

/-- A detached thread created by `await_suspend`, running
`[this, cont] { this->wait(); cont(); }`. -/
structure Waiter (T E : Type) where
  src : Nat
  cont : Handle T E
  finished : Bool

/-- Observable events.  Thread `0` is the main thread, thread `i + 1` is the
waiter at index `i`. -/
inductive Event (T E : Type) where
  | sleep_for (tid secs : Nat)
  | cout (tid : Nat) (text : String) (v : T)
  | set_value (c : Nat) (v : T)
  | set_exception (c : Nat) (e : Exc E)
  | finished (c : Nat)
  | thread (parent child : Nat)
  | resume (tid c : Nat)
  deriving DecidableEq

/-- State of a run. -/
structure World (T E : Type) where
  chans : List (Chan T E)
  threads : List (Waiter T E)
  log : List (Event T E)

variable {T E : Type}

/-- A world with `n` unfulfilled external promises and nothing else. -/
def World.init (n : Nat) : World T E :=
  { chans := List.replicate n { owner := .external, state := none }, threads := [], log := [] }

/-- The stored result of shared state `c`, if it is ready. -/
def World.slot (w : World T E) (c : Nat) : Option (Outcome T E) :=
  match w.chans[c]? with
  | some ch => ch.state
  | none => none

/-- The owner of shared state `c`. -/
def World.owner (w : World T E) (c : Nat) : Option Owner :=
  match w.chans[c]? with
  | some ch => some ch.owner
  | none => none

/-- Append an event to the trace. -/
def World.emit (w : World T E) (ev : Event T E) : World T E :=
  { w with log := w.log ++ [ev] }

/-- Make shared state `c` ready with outcome `o`. -/
def World.store (w : World T E) (c : Nat) (o : Outcome T E) : World T E :=
  { w with chans := w.chans.modify (fun ch => { ch with state := some o }) c }

/-! ## `std::promise` and `std::future` -/

/-- `std::promise<T>::set_value`: fails with `promise_already_satisfied` when the
shared state is ready, otherwise copies the value in; an exception of the copy
leaves the shared state untouched. -/
def set_value [CopyConstructible T E] (c : Nat) (v : T) (w : World T E) :
    Except (Exc E) (World T E) :=
  match w.chans[c]? with
  | none => .error (.future_error .no_state)
  | some ch =>
    match ch.state with
    | some _ => .error (.future_error .promise_already_satisfied)
    | none =>
      match CopyConstructible.copy (E := E) v with
      | .error e => .error e
      | .ok v1 => .ok ((w.store c (.value v1)).emit (.set_value c v1))

/-- `std::promise<T>::set_exception`. -/
def set_exception (c : Nat) (e : Exc E) (w : World T E) : Except (Exc E) (World T E) :=
  match w.chans[c]? with
  | none => .error (.future_error .no_state)
  | some ch =>
    match ch.state with
    | some _ => .error (.future_error .promise_already_satisfied)
    | none => .ok ((w.store c (.exception e)).emit (.set_exception c e))

/-- `std::promise<void>::set_value()`: fails with `promise_already_satisfied` when
the shared state is ready, otherwise makes it ready; there is nothing to copy. -/
def set_value_void (c : Nat) (w : World Unit E) : Except (Exc E) (World Unit E) :=
  match w.chans[c]? with
  | none => .error (.future_error .no_state)
  | some ch =>
    match ch.state with
    | some _ => .error (.future_error .promise_already_satisfied)
    | none => .ok ((w.store c (.value ())).emit (.set_value c ()))

/-- `std::future<T>::wait_for(0s)`: a probe; the world is handed back as is. -/
def wait_for_zero (f : Nat) (w : World T E) : future_status × World T E :=
  match w.slot f with
  | some _ => (.ready, w)
  | none => (.timeout, w)

/-- `std::future<T>::wait`: returns once the shared state is ready; `none` means
the calling thread is still blocked. -/
def wait (f : Nat) (w : World T E) : Option Unit :=
  match w.slot f with
  | some _ => some ()
  | none => none

/-- `std::future<T>::get`: waits, then hands out the value or rethrows the stored
exception; `none` means the calling thread is still blocked.  (A second `get` on
the same future is undefined in C++; here the stored outcome is read again.) -/
def get (f : Nat) (w : World T E) : Option (Outcome T E) :=
  match wait f w with
  | some _ => w.slot f
  | none => none

/-! ## `promise_type` (lines 18-35 and 41-53 of `coawait.cpp`) -/

/-- `get_return_object`: `this->get_future()`.  The promise object is created
with the coroutine frame: a fresh, empty shared state owned by the task. -/
def get_return_object (w : World T E) : Nat × World T E :=
  (w.chans.length, { w with chans := w.chans ++ [{ owner := .task, state := none }] })

/-- `initial_suspend` returns `std::suspend_never`. -/
def initial_suspend : Suspend := .suspend_never

/-- `final_suspend` returns `std::suspend_never`. -/
def final_suspend : Suspend := .suspend_never

/-- `return_value(value)`: `this->set_value(value)`. -/
def return_value [CopyConstructible T E] (self : Nat) (value : T) (w : World T E) :
    Except (Exc E) (World T E) :=
  set_value self value w

/-- `return_void()` of the promise type for `std::future<void>`:
`this->set_value()`. -/
def return_void (self : Nat) (w : World Unit E) : Except (Exc E) (World Unit E) :=
  set_value_void self w

/-- `unhandled_exception() noexcept`: `this->set_exception(std::current_exception())`.
An exception leaving a `noexcept` function calls `std::terminate`: `none`. -/
def unhandled_exception (self : Nat) (current_exception : Exc E) (w : World T E) :
    Option (World T E) :=
  match set_exception self current_exception w with
  | .ok w1 => some w1
  | .error _ => none

/-! ## `operator co_await` (lines 58-76 of `coawait.cpp`) -/

/-- `awaiter::await_ready`: `this->wait_for(0s) != std::future_status::timeout`. -/
def await_ready (f : Nat) (w : World T E) : Bool × World T E :=
  let r := wait_for_zero f w
  (r.1 != future_status.timeout, r.2)

/-- `awaiter::await_suspend(cont)`: `std::thread([this, cont] {...}).detach()`.
A new thread is created, whatever the state of the future. -/
def await_suspend (f : Nat) (cont : Handle T E) (tid : Nat) (w : World T E) : World T E :=
  { w with
    threads := w.threads ++ [{ src := f, cont := cont, finished := false }]
    log := w.log ++ [.thread tid (w.threads.length + 1)] }

/-- `awaiter::await_resume`: `this->get()`. -/
def await_resume (f : Nat) (w : World T E) : Option (Outcome T E) :=
  get f w

/-! ## The coroutine driver -/

/-- The coroutine has run past its final suspension point. -/
def finish (self : Nat) (w : World T E) : World T E :=
  match final_suspend with
  | .suspend_never => w.emit (.finished self)
  | .suspend_always => w

/-- Run the body of the coroutine whose promise is `self` on thread `tid` until
it completes or suspends.  `none` is `std::terminate`.
* `co_return v` calls `return_value`; an exception from it is handled like any
  exception of the body;
* an exception leaving the body calls `unhandled_exception`;
* `call` creates the callee's promise, takes its return object, passes
  `initial_suspend` and runs the callee on the same thread until it completes or
  suspends, then goes on with the caller;
* `co_await f` continues with `await_resume` when `await_ready` is true, and
  otherwise calls `await_suspend` and returns to the caller or resumer. -/
def run [CopyConstructible T E] : Body T E → Nat → Nat → World T E → Option (World T E)
  | .co_return v, self, _, w =>
    match return_value self v w with
    | .ok w1 => some (finish self w1)
    | .error e => (unhandled_exception self e w).map (finish self)
  | .throw e, self, _, w => (unhandled_exception self e w).map (finish self)
  | .sleep_for secs k, self, tid, w => run k self tid (w.emit (.sleep_for tid secs))
  | .cout text v k, self, tid, w => run k self tid (w.emit (.cout tid text v))
  | .call callee k, self, tid, w =>
    let r := get_return_object w
    match initial_suspend with
    | .suspend_always => run (k r.1) self tid r.2
    | .suspend_never =>
      match run callee r.1 tid r.2 with
      | none => none
      | some w2 => run (k r.1) self tid w2
  | .co_await f k, self, tid, w =>
    let r := await_ready f w
    if r.1 then
      match await_resume f r.2 with
      | some o => run (k o) self tid r.2
      | none => some r.2
    else some (await_suspend f { promise := self, resume := k } tid r.2)

/-- Call a coroutine function from ordinary code on thread `tid`: returns the
future and the world in which the callee has completed or suspended. -/
def start [CopyConstructible T E] (body : Body T E) (tid : Nat) (w : World T E) :
    Option (Nat × World T E) :=
  let r := get_return_object w
  match initial_suspend with
  | .suspend_always => some r
  | .suspend_never => (run body r.1 tid r.2).map (fun w2 => (r.1, w2))

/-- `consume()`: `wait()` then `get()` on a task handle. -/
def consume (f : Nat) (w : World T E) : Option (Outcome T E) :=
  match wait f w with
  | some _ => get f w
  | none => none

/-! ## Threads and the environment -/

/-- Mark waiter `i` as done with its `wait()`. -/
def World.retire (w : World T E) (i : Nat) : World T E :=
  { w with threads := w.threads.modify (fun th => { th with finished := true }) i }

/-- The body of waiter thread `i`: `this->wait(); cont();`.  While the source is
not ready the thread stays blocked; once it is, the thread resumes the coroutine
(which evaluates `await_resume` and goes on) and ends. -/
def waiter [CopyConstructible T E] (i : Nat) (w : World T E) : Option (World T E) :=
  match w.threads[i]? with
  | none => some w
  | some th =>
    if th.finished then some w
    else
      match wait th.src w with
      | none => some w
      | some _ =>
        let w1 := (w.retire i).emit (.resume (i + 1) th.cont.promise)
        match await_resume th.src w1 with
        | some o => run (th.cont.resume o) th.cont.promise (i + 1) w1
        | none => some w1

/-- Moves of the environment. -/
inductive Action (T E : Type) where
  | resolve (c : Nat) (o : Outcome T E)
  | sched (i : Nat)
  | spawn (body : Body T E)

/-- One move: an external producer fulfils its own promise (no effect on a
promise it does not own or has already fulfilled), the OS runs waiter `i`, or
the main thread calls a coroutine function. -/
def step [CopyConstructible T E] (w : World T E) : Action T E → Option (World T E)
  | .resolve c o =>
    match w.owner c, w.slot c with
    | some .external, none =>
      match o with
      | .value v => some ((w.store c (.value v)).emit (.set_value c v))
      | .exception e => some ((w.store c (.exception e)).emit (.set_exception c e))
    | _, _ => some w
  | .sched i => waiter i w
  | .spawn body => (start body 0 w).map (fun r => r.2)

/-- Run a schedule. -/
def exec [CopyConstructible T E] (w : World T E) : List (Action T E) → Option (World T E)
  | [] => some w
  | a :: rest =>
    match step w a with
    | none => none
    | some w1 => exec w1 rest

/-! ## Coroutines returning `std::future<void>` (lines 39-54 of `coawait.cpp`)

The second promise type differs from the first in one member: `return_void`
takes the place of `return_value`.  Its driver is the same with that one call
exchanged; `co_return;` is written `co_return ()`. -/

/-- Run the body of a coroutine returning `std::future<void>`: as `run`, with
`return_void` called at `co_return`. -/
def run_void : Body Unit E → Nat → Nat → World Unit E → Option (World Unit E)
  | .co_return _, self, _, w =>
    match return_void self w with
    | .ok w1 => some (finish self w1)
    | .error e => (unhandled_exception self e w).map (finish self)
  | .throw e, self, _, w => (unhandled_exception self e w).map (finish self)
  | .sleep_for secs k, self, tid, w => run_void k self tid (w.emit (.sleep_for tid secs))
  | .cout text v k, self, tid, w => run_void k self tid (w.emit (.cout tid text v))
  | .call callee k, self, tid, w =>
    let r := get_return_object w
    match initial_suspend with
    | .suspend_always => run_void (k r.1) self tid r.2
    | .suspend_never =>
      match run_void callee r.1 tid r.2 with
      | none => none
      | some w2 => run_void (k r.1) self tid w2
  | .co_await f k, self, tid, w =>
    let r := await_ready f w
    if r.1 then
      match await_resume f r.2 with
      | some o => run_void (k o) self tid r.2
      | none => some r.2
    else some (await_suspend f { promise := self, resume := k } tid r.2)

/-- Call a coroutine function returning `std::future<void>`. -/
def start_void (body : Body Unit E) (tid : Nat) (w : World Unit E) :
    Option (Nat × World Unit E) :=
  let r := get_return_object w
  match initial_suspend with
  | .suspend_always => some r
  | .suspend_never => (run_void body r.1 tid r.2).map (fun w2 => (r.1, w2))

/-- The body of waiter thread `i` when the suspended coroutines return
`std::future<void>`. -/
def waiter_void (i : Nat) (w : World Unit E) : Option (World Unit E) :=
  match w.threads[i]? with
  | none => some w
  | some th =>
    if th.finished then some w
    else
      match wait th.src w with
      | none => some w
      | some _ =>
        let w1 := (w.retire i).emit (.resume (i + 1) th.cont.promise)
        match await_resume th.src w1 with
        | some o => run_void (th.cont.resume o) th.cont.promise (i + 1) w1
        | none => some w1

/-- One move of a program whose coroutines return `std::future<void>`. -/
def step_void (w : World Unit E) : Action Unit E → Option (World Unit E)
  | .resolve c o =>
    match w.owner c, w.slot c with
    | some .external, none =>
      match o with
      | .value v => some ((w.store c (.value v)).emit (.set_value c v))
      | .exception e => some ((w.store c (.exception e)).emit (.set_exception c e))
    | _, _ => some w
  | .sched i => waiter_void i w
  | .spawn body => (start_void body 0 w).map (fun r => r.2)

/-- Run a schedule of such a program. -/
def exec_void (w : World Unit E) : List (Action Unit E) → Option (World Unit E)
  | [] => some w
  | a :: rest =>
    match step_void w a with
    | none => none
    | some w1 => exec_void w1 rest

/-! ## The program (lines 79-105 of `coawait.cpp`) -/

/-- `asyncOperation`: sleep two seconds, then `co_return 42`. -/
def asyncOperation : Body Int E :=
  .sleep_for 2 (.co_return 42)

/-- `asyncFunction` after the call of `asyncOperation`: await the future, print
the result, return it. -/
def asyncFunction.rest (fut : Nat) : Body Int E :=
  .co_await fut (fun r =>
    match r with
    | .value result => .cout "Async operation completed. Result: " result (.co_return result)
    | .exception e => .throw e)

/-- `asyncFunction`: `int result = co_await asyncOperation({}); ...; co_return result;`. -/
def asyncFunction : Body Int E :=
  .call asyncOperation asyncFunction.rest

/-- What `main` leaves behind. -/
inductive Exit (T E : Type) where
  | returned (code : Int) (w : World T E)
  | blocked (w : World T E)
  | terminated

/-- `main` with the called coroutine as a parameter: call it, `wait()`, `get()`,
print the result, return 0.  An exception rethrown by `get()` is not caught. -/
def mainWith [CopyConstructible T E] (task : Body T E) (w : World T E) : Exit T E :=
  match start task 0 w with
  | none => .terminated
  | some (asyncTask, w1) =>
    match wait asyncTask w1 with
    | none => .blocked w1
    | some _ =>
      match get asyncTask w1 with
      | some (.value result) => .returned 0 (w1.emit (.cout 0 "Async task result: " result))
      | some (.exception _) => .terminated
      | none => .blocked w1

/-- `main` of `coawait.cpp`. -/
def main : Exit Int E :=
  mainWith asyncFunction (World.init 0)

/-! ## Probing, counting and invariants -/

/-- Call `await_ready` on the same future `n` times in a row, threading the world. -/
def probe (f : Nat) : Nat → World T E → List Bool × World T E
  | 0, w => ([], w)
  | n + 1, w =>
    let r := await_ready f w
    let rest := probe f n r.2
    (r.1 :: rest.1, rest.2)

/-- Is the event "thread `t` called a continuation"? -/
def Event.isResume (t : Nat) : Event T E → Bool
  | .resume t1 _ => t1 == t
  | _ => false

/-- Is the event "a value was stored in shared state `c`"? -/
def Event.isValue (c : Nat) : Event T E → Bool
  | .set_value c1 _ => c1 == c
  | _ => false

/-- Is the event "an exception was stored in shared state `c`"? -/
def Event.isFailure (c : Nat) : Event T E → Bool
  | .set_exception c1 _ => c1 == c
  | _ => false

/-- Is the event "the coroutine with promise `c` has completed"? -/
def Event.isFinished (c : Nat) : Event T E → Bool
  | .finished c1 => c1 == c
  | _ => false

/-- Is the event the creation of a thread? -/
def Event.isThread : Event T E → Bool
  | .thread _ _ => true
  | _ => false

/-- How many times thread `t` has called a continuation. -/
def resumes (t : Nat) (log : List (Event T E)) : Nat := log.countP (Event.isResume t)

/-- How many times `set_value` took effect on shared state `c`. -/
def values (c : Nat) (log : List (Event T E)) : Nat := log.countP (Event.isValue c)

/-- How many times `set_exception` took effect on shared state `c`. -/
def failures (c : Nat) (log : List (Event T E)) : Nat := log.countP (Event.isFailure c)

/-- How many times the coroutine with promise `c` ran to completion. -/
def finishes (c : Nat) (log : List (Event T E)) : Nat := log.countP (Event.isFinished c)

/-- How many threads were created. -/
def spawns (log : List (Event T E)) : Nat := log.countP Event.isThread

/-- The coroutine with promise `self` is executing: its shared state is its own
and still empty, and no waiter holds a handle to it. -/
def Running (w : World T E) (self : Nat) : Prop :=
  w.owner self = some .task ∧ w.slot self = none ∧
    ∀ (i : Nat) (th : Waiter T E), w.threads[i]? = some th → th.finished = false →
      th.cont.promise ≠ self

/-- Consistency of the suspended coroutines: a waiter that has not yet fired
holds the handle of a task whose shared state is empty, no two such waiters hold
the same coroutine, and no continuation call is recorded for a thread that does
not exist yet. -/
structure Inv (w : World T E) : Prop where
  owned : ∀ (i : Nat) (th : Waiter T E), w.threads[i]? = some th → th.finished = false →
    w.owner th.cont.promise = some .task ∧ w.slot th.cont.promise = none
  unique : ∀ (i j : Nat) (thi thj : Waiter T E),
    w.threads[i]? = some thi → w.threads[j]? = some thj →
    thi.finished = false → thj.finished = false →
    thi.cont.promise = thj.cont.promise → i = j
  fresh : ∀ t, w.threads.length < t → resumes t w.log = 0

/-- The trace agrees with the shared states: an empty one has seen no `set_value`,
no `set_exception` and no completion; a ready one has seen exactly the one call
that made it ready. -/
structure Tally (w : World T E) : Prop where
  empty : ∀ c, w.slot c = none →
    values c w.log = 0 ∧ failures c w.log = 0 ∧ finishes c w.log = 0
  value : ∀ c v, w.slot c = some (.value v) → values c w.log = 1 ∧ failures c w.log = 0
  exception : ∀ c e, w.slot c = some (.exception e) →
    values c w.log = 0 ∧ failures c w.log = 1

/-- What running the coroutine with promise `c` may change between `w` and
`w1`: shared states are only added, owners stay, a ready shared state stays as
it is, among the old ones only that of `c` can become ready, threads are only
added and the new ones hold `c` or a coroutine created meanwhile, and no
continuation is called. -/
structure Frame (c : Nat) (w w1 : World T E) : Prop where
  len : w.chans.length ≤ w1.chans.length
  owner : ∀ d, d < w.chans.length → w1.owner d = w.owner d
  slot : ∀ d, d < w.chans.length → d ≠ c → w1.slot d = w.slot d
  mono : ∀ d o, w.slot d = some o → w1.slot d = some o
  threads : ∃ new : List (Waiter T E), w1.threads = w.threads ++ new ∧
    ∀ th ∈ new, th.finished = false ∧
      (th.cont.promise = c ∨ w.chans.length ≤ th.cont.promise)
  log : ∀ t, resumes t w1.log = resumes t w.log

/-- Events that record neither a change of a shared state nor the completion of a
coroutine nor the call of a continuation. -/
def Event.isQuiet : Event T E → Bool
  | .sleep_for _ _ => true
  | .cout _ _ _ => true
  | .thread _ _ => true
  | _ => false

/-- The event recorded when outcome `o` is stored in shared state `c`. -/
def Event.ofOutcome (c : Nat) : Outcome T E → Event T E
  | .value v => .set_value c v
  | .exception e => .set_exception c e

/-- A property of worlds that every elementary move keeps: recording a quiet
event, making an empty shared state ready, completing a coroutine whose shared
state is ready, creating a promise, creating a waiter thread on a source that
is not ready, and a waiter whose source is ready calling its continuation. -/
structure Closed (P : World T E → Prop) : Prop where
  emit : ∀ (w : World T E) (ev : Event T E), P w → Event.isQuiet ev = true → P (w.emit ev)
  set : ∀ (w : World T E) (c : Nat) (o : Outcome T E), P w → w.slot c = none →
    c < w.chans.length → P ((w.store c o).emit (Event.ofOutcome c o))
  fin : ∀ (w : World T E) (c : Nat) (o : Outcome T E), P w → w.slot c = some o →
    P (w.emit (.finished c))
  gro : ∀ (w : World T E), P w → P (get_return_object w).2
  suspend : ∀ (w : World T E) (f tid : Nat) (h : Handle T E), P w → w.slot f = none →
    P (await_suspend f h tid w)
  fire : ∀ (w : World T E) (i : Nat) (th : Waiter T E) (o : Outcome T E), P w →
    w.threads[i]? = some th → th.finished = false → w.slot th.src = some o →
    P ((w.retire i).emit (.resume (i + 1) th.cont.promise))

/-- Waiter `i` waits on `f`, and either has not fired and has called no
continuation, or has fired, has called exactly one, and `f` is ready. -/
def Tracked (i f : Nat) (w : World T E) : Prop :=
  ∃ th : Waiter T E, w.threads[i]? = some th ∧ th.src = f ∧
    ((th.finished = false ∧ resumes (i + 1) w.log = 0) ∨
     (th.finished = true ∧ resumes (i + 1) w.log = 1 ∧ ∃ o, w.slot f = some o))

/-- Waiter `i` has fired and has called exactly one continuation. -/
def Fired (i : Nat) (w : World T E) : Prop :=
  ∃ th : Waiter T E, w.threads[i]? = some th ∧ th.finished = true ∧
    resumes (i + 1) w.log = 1

/-- Waiter `i` waits on `src` and holds the handle `cont`. -/
def Holds (i src : Nat) (cont : Handle T E) (w : World T E) : Prop :=
  ∃ th : Waiter T E, w.threads[i]? = some th ∧ th.src = src ∧ th.cont = cont

/-! ## Sample inputs -/

/-- A continuation without a handler: pass the value on, let an exception leave
the body. -/
def forward {T E : Type} : Outcome T E → Body T E
  | .value v => .co_return v
  | .exception e => .throw e

/-- One external future, not ready, and the fresh promise `1` of a task that is
about to run. -/
def samplePending : World Int String :=
  (get_return_object (World.init 1)).2

/-- One external future, ready with `7`, and the fresh promise `1` of a task that
is about to run. -/
def sampleReady : World Int String :=
  (get_return_object ((World.init 1).store 0 (.value 7))).2

/-- One external future, failed with `"boom"`, and the fresh promise `1` of a
task that is about to run. -/
def sampleFailed : World Int String :=
  (get_return_object ((World.init 1).store 0 (.exception (.user "boom")))).2

/-- A result type whose copy constructor always throws. -/
inductive Fragile where
  | mk
  deriving DecidableEq, Repr

/-- Copying a `Fragile` throws `"bad copy"`. -/
instance instCopyFragile : CopyConstructible Fragile String :=
  ⟨fun _ => .error (.user "bad copy")⟩

end Coawait

/-! ## The generator program (`main.cpp`) -/

namespace GeneratorDemo

/-- A `char`: one byte. -/
abbrev char := Fin 256

/-- The `std::string` objects of the program, by address: the bytes of a live
object, `none` for a destroyed one.  A reference is an address. -/
abbrev Memory := List (Option (List char))

/-- Read the string at address `r`; `none` when no live object is there (the
read is undefined behaviour). -/
def Memory.read (m : Memory) (r : Nat) : Option (List char) :=
  match m[r]? with
  | some obj => obj
  | none => none

/-- Construct a string object; returns its address. -/
def Memory.alloc (m : Memory) (bytes : List char) : Nat × Memory :=
  (m.length, m ++ [some bytes])

/-- Destroy the string object at address `r`. -/
def Memory.destroy (m : Memory) (r : Nat) : Memory :=
  m.set r none

/-- What resuming a generator coroutine gives: a yielded value and the frame at
the new suspension point, the end of the body, or undefined behaviour. -/
inductive Resumed (T F : Type) where
  | yielded (v : T) (fr : F)
  | returned
  | undefined
  deriving DecidableEq

/-- Modelled from the spec: the class template `Generator<T>` of `generator.h`,
which is not among the sources.  The spec gives it as a finite, non-restartable
sequence with `has_next() -> bool` and `next() -> T`, driven by the suspension
protocol.  Here it is the handle of a coroutine with frame type `F`: suspended
at a suspension point, holding a value it has produced but not yet handed out,
or done. -/
inductive Generator (T F : Type) where
  | suspended (fr : F)
  | holding (v : T) (fr : F)
  | done
  deriving DecidableEq

variable {T F : Type}

/-- Modelled from the spec: `has_next()` of the absent `generator.h`.  A
suspended coroutine is resumed to find out; the answer comes with the new state
of the generator, and `none` is undefined behaviour of the resumed body. -/
def has_next (resume : Memory → F → Resumed T F) (m : Memory) :
    Generator T F → Option (Bool × Generator T F)
  | .suspended fr =>
    match resume m fr with
    | .yielded v fr1 => some (true, .holding v fr1)
    | .returned => some (false, .done)
    | .undefined => none
  | .holding v fr => some (true, .holding v fr)
  | .done => some (false, .done)

/-- Modelled from the spec: `next()` of the absent `generator.h`, the next
value together with the new state of the generator; `none` when there is none
(undefined in the spec) or when the resumed body is undefined. -/
def next (resume : Memory → F → Resumed T F) (m : Memory) (g : Generator T F) :
    Option (T × Generator T F) :=
  match has_next resume m g with
  | some (true, .holding v fr) => some (v, .suspended fr)
  | _ => none

/-- One step of a consumer: "produce the next element or signal exhaustion";
the outer `none` is undefined behaviour. -/
def pull (resume : Memory → F → Resumed T F) (m : Memory) (g : Generator T F) :
    Option (Option T × Generator T F) :=
  match has_next resume m g with
  | none => none
  | some (false, g1) => some (none, g1)
  | some (true, g1) =>
    match next resume m g1 with
    | some (v, g2) => some (some v, g2)
    | none => none

/-- Take `n` steps. -/
def pulls (resume : Memory → F → Resumed T F) (m : Memory) :
    Nat → Generator T F → Option (List (Option T) × Generator T F)
  | 0, g => some ([], g)
  | n + 1, g =>
    match pull resume m g with
    | none => none
    | some (x, g1) =>
      match pulls resume m n g1 with
      | none => none
      | some (xs, g2) => some (x :: xs, g2)

/-- The coroutine frame of `expolode`: the parameter `s`, a reference
(`const std::string &`), and the position of the range-for loop in it. -/
structure Frame where
  s : Nat
  pos : Nat
  deriving DecidableEq

/-- The body of `expolode` from a suspension point to the next:
`for (char ch : s) { co_yield ch; }`.  Each turn of the loop goes through the
reference `s`; if the string it refers to has been destroyed, that is undefined
behaviour. -/
def expolode.resume (m : Memory) (fr : Frame) : Resumed char Frame :=
  match m.read fr.s with
  | none => .undefined
  | some bytes =>
    match bytes[fr.pos]? with
    | some ch => .yielded ch { fr with pos := fr.pos + 1 }
    | none => .returned

/-- `expolode(s)`: the call creates the coroutine, whose frame keeps the
reference `s`, not a copy of the string.  (A generator that ran to its first
`co_yield` inside the call would read the string once while it is alive and go
through the reference again at its next resumption.) -/
def expolode (s : Nat) : Generator char Frame :=
  .suspended { s := s, pos := 0 }

/-- The bytes of the literal `"hello"`. -/
def hello : List char := [104, 101, 108, 108, 111]

/-- How a loop over a generator ends: normally with its output, in undefined
behaviour after some output, or not within the given number of iterations. -/
inductive Exit where
  | finished (out : List char)
  | undefined (out : List char)
  | unfinished (out : List char)
  deriving DecidableEq

/-- The range-for loop of `main` over a generator, writing each character to the
output, with a bound on the number of iterations. -/
def forEach (m : Memory) : Nat → Generator char Frame → List char → Exit
  | 0, _, out => .unfinished out
  | fuel + 1, g, out =>
    match pull expolode.resume m g with
    | none => .undefined out
    | some (some ch, g1) => forEach m fuel g1 (out ++ [ch])
    | some (none, _) => .finished out

/-- `main` of `main.cpp`: `for (char ch : expolode("hello")) ...`.  The range
initialiser makes a temporary `std::string` from the literal and passes it by
reference; the temporary is destroyed at the end of the initialiser, before the
loop first resumes the generator. -/
def main (fuel : Nat) : Exit :=
  let tmp := Memory.alloc [] hello
  let gen := expolode tmp.1
  forEach (tmp.2.destroy tmp.1) fuel gen []

/-- The same loop over a named string that lives as long as the loop:
`std::string s = "hello"; for (char ch : expolode(s)) ...`. -/
def mainNamed (fuel : Nat) : Exit :=
  let s := Memory.alloc [] hello
  forEach s.2 fuel (expolode s.1) []

end GeneratorDemo

/-! # Theorems -/

namespace Coawait

/-! ## Basic facts about the world and the driver -/

section

variable {T E : Type}

@[simp] theorem emit_chans (w : World T E) (ev : Event T E) : (w.emit ev).chans = w.chans := rfl
@[simp] theorem emit_threads (w : World T E) (ev : Event T E) : (w.emit ev).threads = w.threads := rfl
@[simp] theorem emit_log (w : World T E) (ev : Event T E) : (w.emit ev).log = w.log ++ [ev] := rfl
@[simp] theorem emit_slot (w : World T E) (ev : Event T E) (c : Nat) : (w.emit ev).slot c = w.slot c := rfl
@[simp] theorem emit_owner (w : World T E) (ev : Event T E) (c : Nat) :
    (w.emit ev).owner c = w.owner c := rfl
@[simp] theorem store_threads (w : World T E) (c : Nat) (o : Outcome T E) :
    (w.store c o).threads = w.threads := rfl
@[simp] theorem store_log (w : World T E) (c : Nat) (o : Outcome T E) :
    (w.store c o).log = w.log := rfl
@[simp] theorem store_length (w : World T E) (c : Nat) (o : Outcome T E) :
    (w.store c o).chans.length = w.chans.length := by
  simp [World.store]
@[simp] theorem store_owner (w : World T E) (c d : Nat) (o : Outcome T E) :
    (w.store c o).owner d = w.owner d := by
  unfold World.owner World.store
  by_cases h : c = d
  · subst h
    simp only [List.getElem?_modify_eq]
    cases w.chans[c]? <;> rfl
  · simp only [List.getElem?_modify_ne _ _ h]

theorem store_slot_ne (w : World T E) (c d : Nat) (o : Outcome T E) (h : d ≠ c) :
    (w.store c o).slot d = w.slot d := by
  unfold World.slot World.store
  simp only [List.getElem?_modify_ne _ _ (Ne.symm h)]

theorem store_slot_self (w : World T E) (c : Nat) (o : Outcome T E) (h : c < w.chans.length) :
    (w.store c o).slot c = some o := by
  unfold World.slot World.store
  simp only [List.getElem?_modify_eq]
  rw [List.getElem?_eq_getElem h]
  rfl

theorem owner_lt (w : World T E) (c : Nat) (ow : Owner) (h : w.owner c = some ow) :
    c < w.chans.length := by
  unfold World.owner at h
  by_contra hc
  rw [List.getElem?_eq_none (Nat.le_of_not_lt hc)] at h
  exact absurd h (by simp)

@[simp] theorem await_ready_snd (f : Nat) (w : World T E) : (await_ready f w).2 = w := by
  unfold await_ready wait_for_zero
  cases w.slot f <;> rfl

theorem await_ready_fst (f : Nat) (w : World T E) : (await_ready f w).1 = (w.slot f).isSome := by
  unfold await_ready wait_for_zero
  cases w.slot f <;> rfl

@[simp] theorem get_eq_slot (f : Nat) (w : World T E) : get f w = w.slot f := by
  unfold get wait
  cases h : w.slot f <;> rfl

@[simp] theorem await_resume_eq_slot (f : Nat) (w : World T E) : await_resume f w = w.slot f :=
  get_eq_slot f w

@[simp] theorem consume_eq_slot (f : Nat) (w : World T E) : consume f w = w.slot f := by
  unfold consume wait
  cases h : w.slot f
  · rfl
  · simp [h]

variable [CopyConstructible T E]

theorem run_co_await_ready (f : Nat) (k : Outcome T E → Body T E) (self tid : Nat)
    (w : World T E) (o : Outcome T E) (h : w.slot f = some o) :
    run (.co_await f k) self tid w = run (k o) self tid w := by
  simp [run, await_ready_fst, h]

theorem run_co_await_pending (f : Nat) (k : Outcome T E → Body T E) (self tid : Nat)
    (w : World T E) (h : w.slot f = none) :
    run (.co_await f k) self tid w =
      some (await_suspend f { promise := self, resume := k } tid w) := by
  simp [run, await_ready_fst, h]

theorem run_call (callee : Body T E) (k : Nat → Body T E) (self tid : Nat) (w : World T E) :
    run (.call callee k) self tid w =
      (run callee w.chans.length tid (get_return_object w).2).bind
        (fun w2 => run (k w.chans.length) self tid w2) := by
  simp only [run, initial_suspend, get_return_object]
  cases run callee w.chans.length tid _ <;> rfl

end

/-! ## Promises -/

section

variable {T E : Type}

@[simp] theorem gro_fst (w : World T E) : (get_return_object w).1 = w.chans.length := rfl
@[simp] theorem gro_threads (w : World T E) : (get_return_object w).2.threads = w.threads := rfl
@[simp] theorem gro_log (w : World T E) : (get_return_object w).2.log = w.log := rfl
@[simp] theorem gro_length (w : World T E) :
    (get_return_object w).2.chans.length = w.chans.length + 1 := by
  simp [get_return_object]

@[simp] theorem gro_slot (w : World T E) (d : Nat) : (get_return_object w).2.slot d = w.slot d := by
  unfold World.slot get_return_object
  rcases Nat.lt_trichotomy d w.chans.length with h | h | h
  · simp [List.getElem?_append_left h]
  · subst h
    simp
  · have h1 : w.chans.length ≤ d := Nat.le_of_lt h
    rw [List.getElem?_eq_none h1, List.getElem?_eq_none]
    simp
    omega

theorem gro_owner_new (w : World T E) :
    (get_return_object w).2.owner w.chans.length = some .task := by
  simp [World.owner, get_return_object]

theorem gro_owner_old (w : World T E) (d : Nat) (h : d < w.chans.length) :
    (get_return_object w).2.owner d = w.owner d := by
  simp [World.owner, get_return_object, List.getElem?_append_left h]

theorem slot_none_state (w : World T E) (c : Nat) (ch : Chan T E) (h : w.slot c = none)
    (hc : w.chans[c]? = some ch) : ch.state = none := by
  simpa [World.slot, hc] using h

theorem set_exception_ok (w : World T E) (c : Nat) (e : Exc E) (h : w.slot c = none)
    (hc : c < w.chans.length) :
    set_exception c e w = .ok ((w.store c (.exception e)).emit (.set_exception c e)) := by
  unfold set_exception
  have hs := slot_none_state w c _ h (List.getElem?_eq_getElem hc)
  rw [List.getElem?_eq_getElem hc]
  simp only [hs]

theorem set_value_ok [CopyConstructible T E] (w : World T E) (c : Nat) (v v1 : T)
    (h : w.slot c = none) (hc : c < w.chans.length)
    (hv : CopyConstructible.copy (E := E) v = .ok v1) :
    set_value c v w = .ok ((w.store c (.value v1)).emit (.set_value c v1)) := by
  unfold set_value
  have hs := slot_none_state w c _ h (List.getElem?_eq_getElem hc)
  rw [List.getElem?_eq_getElem hc]
  simp only [hs, hv]

theorem set_value_copy_throws [CopyConstructible T E] (w : World T E) (c : Nat) (v : T)
    (e : Exc E) (h : w.slot c = none) (hc : c < w.chans.length)
    (hv : CopyConstructible.copy (E := E) v = .error e) :
    set_value c v w = .error e := by
  unfold set_value
  have hs := slot_none_state w c _ h (List.getElem?_eq_getElem hc)
  rw [List.getElem?_eq_getElem hc]
  simp only [hs, hv]

theorem run_throw_ok [CopyConstructible T E] (w : World T E) (self tid : Nat) (e : Exc E)
    (h : w.slot self = none) (hc : self < w.chans.length) :
    run (.throw e) self tid w =
      some (((w.store self (.exception e)).emit (.set_exception self e)).emit (.finished self)) := by
  simp [run, unhandled_exception, set_exception_ok w self e h hc, finish, final_suspend]

theorem run_co_return_ok [CopyConstructible T E] (w : World T E) (self tid : Nat) (v v1 : T)
    (h : w.slot self = none) (hc : self < w.chans.length)
    (hv : CopyConstructible.copy (E := E) v = .ok v1) :
    run (.co_return v) self tid w =
      some (((w.store self (.value v1)).emit (.set_value self v1)).emit (.finished self)) := by
  simp [run, return_value, set_value_ok w self v v1 h hc hv, finish, final_suspend]

theorem run_co_return_copy_throws [CopyConstructible T E] (w : World T E) (self tid : Nat)
    (v : T) (e : Exc E) (h : w.slot self = none) (hc : self < w.chans.length)
    (hv : CopyConstructible.copy (E := E) v = .error e) :
    run (.co_return v) self tid w =
      some (((w.store self (.exception e)).emit (.set_exception self e)).emit (.finished self)) := by
  simp [run, return_value, set_value_copy_throws w self v e h hc hv, unhandled_exception,
    set_exception_ok w self e h hc, finish, final_suspend]

end

/-! ## The frame of a run -/

section

variable {T E : Type}

theorem set_exception_inv (w w1 : World T E) (c : Nat) (e : Exc E)
    (h : set_exception c e w = .ok w1) :
    w.slot c = none ∧ c < w.chans.length ∧
      w1 = (w.store c (.exception e)).emit (.set_exception c e) := by
  unfold set_exception at h
  cases hc : w.chans[c]? with
  | none => simp [hc] at h
  | some ch =>
    have hlt : c < w.chans.length := by
      by_contra hn
      rw [List.getElem?_eq_none (Nat.le_of_not_lt hn)] at hc
      exact absurd hc (by simp)
    cases hs : ch.state with
    | some o => simp [hc, hs] at h
    | none =>
      simp only [hc, hs, Except.ok.injEq] at h
      exact ⟨by simp [World.slot, hc, hs], hlt, h.symm⟩

theorem set_value_inv [CopyConstructible T E] (w w1 : World T E) (c : Nat) (v : T)
    (h : set_value c v w = .ok w1) :
    ∃ v1, CopyConstructible.copy (E := E) v = .ok v1 ∧ w.slot c = none ∧ c < w.chans.length ∧
      w1 = (w.store c (.value v1)).emit (.set_value c v1) := by
  unfold set_value at h
  cases hc : w.chans[c]? with
  | none => simp [hc] at h
  | some ch =>
    have hlt : c < w.chans.length := by
      by_contra hn
      rw [List.getElem?_eq_none (Nat.le_of_not_lt hn)] at hc
      exact absurd hc (by simp)
    cases hs : ch.state with
    | some o => simp [hc, hs] at h
    | none =>
      cases hv : CopyConstructible.copy (E := E) v with
      | error e => simp [hc, hs, hv] at h
      | ok v1 =>
        simp only [hc, hs, hv, Except.ok.injEq] at h
        exact ⟨v1, rfl, by simp [World.slot, hc, hs], hlt, h.symm⟩

theorem unhandled_exception_inv (w w1 : World T E) (c : Nat) (e : Exc E)
    (h : unhandled_exception c e w = some w1) :
    w.slot c = none ∧ c < w.chans.length ∧
      w1 = (w.store c (.exception e)).emit (.set_exception c e) := by
  unfold unhandled_exception at h
  cases hs : set_exception c e w with
  | error x => simp [hs] at h
  | ok w2 =>
    simp only [hs, Option.some.injEq] at h
    subst h
    exact set_exception_inv w w2 c e hs

@[simp] theorem resumes_append (t : Nat) (l1 l2 : List (Event T E)) :
    resumes t (l1 ++ l2) = resumes t l1 + resumes t l2 := by
  simp [resumes, List.countP_append]

theorem frame_emit (self : Nat) (w : World T E) (ev : Event T E)
    (hev : ∀ t, Event.isResume t ev = false) : Frame self w (w.emit ev) where
  len := Nat.le_refl _
  owner := fun _ _ => rfl
  slot := fun _ _ _ => rfl
  mono := fun _ _ h => h
  threads := ⟨[], by simp⟩
  log := fun t => by simp [resumes, List.countP_append, List.countP_cons, hev t]

theorem frame_store (self : Nat) (w : World T E) (o : Outcome T E) (h : w.slot self = none) :
    Frame self w (w.store self o) where
  len := by simp
  owner := fun d _ => by simp
  slot := fun d _ hd => store_slot_ne w self d o hd
  mono := fun d o1 hd => by
    have hne : d ≠ self := by
      intro heq
      rw [heq, h] at hd
      exact absurd hd (by simp)
    rw [store_slot_ne w self d o hne]
    exact hd
  threads := ⟨[], by simp⟩
  log := fun _ => rfl

theorem frame_suspend (self f tid : Nat) (k : Outcome T E → Body T E) (w : World T E) :
    Frame self w (await_suspend f { promise := self, resume := k } tid w) where
  len := Nat.le_refl _
  owner := fun _ _ => rfl
  slot := fun _ _ _ => rfl
  mono := fun _ _ h => h
  threads := ⟨[{ src := f, cont := { promise := self, resume := k }, finished := false }],
    rfl, by simp⟩
  log := fun t => by
    simp [await_suspend, resumes, List.countP_append, List.countP_cons, Event.isResume]

theorem frame_trans (self : Nat) (w w1 w2 : World T E) (h1 : Frame self w w1)
    (h2 : Frame self w1 w2) : Frame self w w2 where
  len := Nat.le_trans h1.len h2.len
  owner := fun d hd => by
    rw [h2.owner d (Nat.lt_of_lt_of_le hd h1.len), h1.owner d hd]
  slot := fun d hd hne => by
    rw [h2.slot d (Nat.lt_of_lt_of_le hd h1.len) hne, h1.slot d hd hne]
  mono := fun d o hd => h2.mono d o (h1.mono d o hd)
  threads := by
    obtain ⟨n1, e1, p1⟩ := h1.threads
    obtain ⟨n2, e2, p2⟩ := h2.threads
    refine ⟨n1 ++ n2, by rw [e2, e1, List.append_assoc], ?_⟩
    intro th hth
    rcases List.mem_append.mp hth with hm | hm
    · exact p1 th hm
    · obtain ⟨hf, hp⟩ := p2 th hm
      refine ⟨hf, ?_⟩
      rcases hp with hp | hp
      · exact Or.inl hp
      · exact Or.inr (Nat.le_trans h1.len hp)
  log := fun t => by rw [h2.log t, h1.log t]

/-- A callee's frame, seen from the caller: the callee's promise is new, so
nothing the caller knew has changed. -/
theorem frame_callee (self : Nat) (w w2 : World T E)
    (h : Frame w.chans.length (get_return_object w).2 w2) : Frame self w w2 where
  len := Nat.le_trans (by simp) h.len
  owner := fun d hd => by
    rw [h.owner d (by simp; omega), gro_owner_old w d hd]
  slot := fun d hd _ => by
    rw [h.slot d (by simp; omega) (Nat.ne_of_lt hd), gro_slot]
  mono := fun d o hd => h.mono d o (by rw [gro_slot]; exact hd)
  threads := by
    obtain ⟨n1, e1, p1⟩ := h.threads
    refine ⟨n1, by simpa using e1, ?_⟩
    intro th hth
    obtain ⟨hf, hp⟩ := p1 th hth
    refine ⟨hf, Or.inr ?_⟩
    rcases hp with hp | hp
    · exact Nat.le_of_eq hp.symm
    · simp at hp
      omega
  log := fun t => by rw [h.log t]; rfl

variable [CopyConstructible T E]

theorem run_frame (body : Body T E) : ∀ (self tid : Nat) (w w1 : World T E),
    run body self tid w = some w1 → Frame self w w1 := by
  induction body with
  | co_return v =>
    intro self tid w w1 h
    simp only [run, return_value] at h
    cases hs : set_value self v w with
    | ok w2 =>
      simp only [hs, Option.some.injEq] at h
      obtain ⟨v1, _, hn, _, rfl⟩ := set_value_inv w w2 self v hs
      subst h
      simp only [finish, final_suspend]
      exact frame_trans _ _ _ _ (frame_trans _ _ _ _ (frame_store self w _ hn)
        (frame_emit _ _ _ (by intro t; rfl))) (frame_emit _ _ _ (by intro t; rfl))
    | error e =>
      simp only [hs, Option.map_eq_some'] at h
      obtain ⟨w2, hu, rfl⟩ := h
      obtain ⟨hn, _, rfl⟩ := unhandled_exception_inv w w2 self e hu
      simp only [finish, final_suspend]
      exact frame_trans _ _ _ _ (frame_trans _ _ _ _ (frame_store self w _ hn)
        (frame_emit _ _ _ (by intro t; rfl))) (frame_emit _ _ _ (by intro t; rfl))
  | throw e =>
    intro self tid w w1 h
    simp only [run, Option.map_eq_some'] at h
    obtain ⟨w2, hu, rfl⟩ := h
    obtain ⟨hn, _, rfl⟩ := unhandled_exception_inv w w2 self e hu
    simp only [finish, final_suspend]
    exact frame_trans _ _ _ _ (frame_trans _ _ _ _ (frame_store self w _ hn)
      (frame_emit _ _ _ (by intro t; rfl))) (frame_emit _ _ _ (by intro t; rfl))
  | sleep_for secs k ih =>
    intro self tid w w1 h
    simp only [run] at h
    exact frame_trans _ _ _ _ (frame_emit _ _ _ (by intro t; rfl)) (ih self tid _ w1 h)
  | cout text v k ih =>
    intro self tid w w1 h
    simp only [run] at h
    exact frame_trans _ _ _ _ (frame_emit _ _ _ (by intro t; rfl)) (ih self tid _ w1 h)
  | call callee k ihc ihk =>
    intro self tid w w1 h
    rw [run_call] at h
    cases hc : run callee w.chans.length tid (get_return_object w).2 with
    | none => simp [hc] at h
    | some w2 =>
      simp only [hc, Option.some_bind] at h
      exact frame_trans _ _ _ _ (frame_callee self w w2 (ihc _ tid _ w2 hc))
        (ihk _ self tid w2 w1 h)
  | co_await f k ih =>
    intro self tid w w1 h
    cases hs : w.slot f with
    | some o =>
      rw [run_co_await_ready f k self tid w o hs] at h
      exact ih o self tid w w1 h
    | none =>
      rw [run_co_await_pending f k self tid w hs] at h
      simp only [Option.some.injEq] at h
      subst h
      exact frame_suspend self f tid k w

end

/-! ## The invariant along a run -/

section

variable {T E : Type}

theorem getElem?_snoc_some {α : Type} (l : List α) (a b : α) (i : Nat)
    (h : (l ++ [a])[i]? = some b) : l[i]? = some b ∨ (i = l.length ∧ a = b) := by
  rcases Nat.lt_trichotomy i l.length with hi | hi | hi
  · rw [List.getElem?_append_left hi] at h
    exact Or.inl h
  · subst hi
    simp at h
    exact Or.inr ⟨rfl, h⟩
  · rw [List.getElem?_eq_none (by simp; omega)] at h
    exact absurd h (by simp)

theorem getElem?_some_lt {α : Type} (l : List α) (b : α) (i : Nat) (h : l[i]? = some b) :
    i < l.length := by
  by_contra hn
  rw [List.getElem?_eq_none (Nat.le_of_not_lt hn)] at h
  exact absurd h (by simp)

theorem inv_emit (w : World T E) (ev : Event T E) (h : Inv w)
    (hev : ∀ t, Event.isResume t ev = false) : Inv (w.emit ev) where
  owned := h.owned
  unique := h.unique
  fresh := fun t ht => by
    have := h.fresh t ht
    simp [resumes, List.countP_append, List.countP_cons, hev t] at this ⊢
    exact this

theorem running_emit (w : World T E) (ev : Event T E) (self : Nat) (h : Running w self) :
    Running (w.emit ev) self := h

theorem inv_store (w : World T E) (self : Nat) (o : Outcome T E) (h : Inv w)
    (hr : Running w self) : Inv (w.store self o) where
  owned := fun i th hth hf => by
    obtain ⟨ho, hs⟩ := h.owned i th hth hf
    have hne : th.cont.promise ≠ self := hr.2.2 i th hth hf
    exact ⟨by simpa using ho, by rw [store_slot_ne w self _ o hne]; exact hs⟩
  unique := h.unique
  fresh := h.fresh

theorem inv_gro (w : World T E) (h : Inv w) : Inv (get_return_object w).2 where
  owned := fun i th hth hf => by
    obtain ⟨ho, hs⟩ := h.owned i th hth hf
    exact ⟨by rw [gro_owner_old w _ (owner_lt w _ _ ho)]; exact ho, by simpa using hs⟩
  unique := h.unique
  fresh := h.fresh

theorem running_gro (w : World T E) (h : Inv w) :
    Running (get_return_object w).2 w.chans.length := by
  refine ⟨gro_owner_new w, ?_, ?_⟩
  · rw [gro_slot]
    unfold World.slot
    rw [List.getElem?_eq_none (Nat.le_refl _)]
  · intro i th hth hf heq
    obtain ⟨ho, _⟩ := h.owned i th hth hf
    have := owner_lt w _ _ ho
    omega

theorem inv_suspend (w : World T E) (self f tid : Nat) (k : Outcome T E → Body T E)
    (h : Inv w) (hr : Running w self) :
    Inv (await_suspend f { promise := self, resume := k } tid w) where
  owned := fun i th hth hf => by
    rcases getElem?_snoc_some _ _ _ _ hth with hold | ⟨_, hnew⟩
    · exact h.owned i th hold hf
    · subst hnew
      exact ⟨hr.1, hr.2.1⟩
  unique := fun i j thi thj hi hj hfi hfj heq => by
    rcases getElem?_snoc_some _ _ _ _ hi with hio | ⟨hil, hin⟩
    · rcases getElem?_snoc_some _ _ _ _ hj with hjo | ⟨hjl, hjn⟩
      · exact h.unique i j thi thj hio hjo hfi hfj heq
      · subst hjn
        exact absurd heq (hr.2.2 i thi hio hfi)
    · rcases getElem?_snoc_some _ _ _ _ hj with hjo | ⟨hjl, hjn⟩
      · subst hin
        exact absurd heq.symm (hr.2.2 j thj hjo hfj)
      · rw [hil, hjl]
  fresh := fun t ht => by
    have hlen : w.threads.length < t := by
      simp [await_suspend] at ht
      omega
    have := h.fresh t hlen
    simp [await_suspend, resumes, List.countP_append, List.countP_cons, Event.isResume] at this ⊢
    exact this

/-- After a callee has run, the caller is still running. -/
theorem running_after_callee (w w2 : World T E) (self : Nat) (hr : Running w self)
    (hf : Frame w.chans.length (get_return_object w).2 w2) : Running w2 self := by
  have hlt : self < w.chans.length := owner_lt w _ _ hr.1
  have hfr := frame_callee self w w2 hf
  refine ⟨by rw [hfr.owner self hlt]; exact hr.1, ?_, ?_⟩
  · rw [hf.slot self (by simp; omega) (Nat.ne_of_lt hlt), gro_slot]
    exact hr.2.1
  · intro i th hth hfin
    obtain ⟨new, e1, p1⟩ := hf.threads
    rw [e1, gro_threads] at hth
    by_cases hi : i < w.threads.length
    · rw [List.getElem?_append_left hi] at hth
      exact hr.2.2 i th hth hfin
    · rw [List.getElem?_append_right (Nat.le_of_not_lt hi)] at hth
      have hmem : th ∈ new := List.getElem?_mem hth
      obtain ⟨_, hp⟩ := p1 th hmem
      rcases hp with hp | hp
      · omega
      · simp at hp
        omega

variable [CopyConstructible T E]

theorem run_inv (body : Body T E) : ∀ (self tid : Nat) (w : World T E),
    Inv w → Running w self → ∃ w1, run body self tid w = some w1 ∧ Inv w1 := by
  induction body with
  | co_return v =>
    intro self tid w hi hr
    have hlt : self < w.chans.length := owner_lt w _ _ hr.1
    cases hv : CopyConstructible.copy (E := E) v with
    | ok v1 =>
      exact ⟨_, run_co_return_ok w self tid v v1 hr.2.1 hlt hv,
        inv_emit _ _ (inv_emit _ _ (inv_store w self _ hi hr) (by intro t; rfl))
          (by intro t; rfl)⟩
    | error e =>
      exact ⟨_, run_co_return_copy_throws w self tid v e hr.2.1 hlt hv,
        inv_emit _ _ (inv_emit _ _ (inv_store w self _ hi hr) (by intro t; rfl))
          (by intro t; rfl)⟩
  | throw e =>
    intro self tid w hi hr
    have hlt : self < w.chans.length := owner_lt w _ _ hr.1
    exact ⟨_, run_throw_ok w self tid e hr.2.1 hlt,
      inv_emit _ _ (inv_emit _ _ (inv_store w self _ hi hr) (by intro t; rfl))
        (by intro t; rfl)⟩
  | sleep_for secs k ih =>
    intro self tid w hi hr
    simp only [run]
    exact ih self tid _ (inv_emit _ _ hi (by intro t; rfl)) (running_emit _ _ _ hr)
  | cout text v k ih =>
    intro self tid w hi hr
    simp only [run]
    exact ih self tid _ (inv_emit _ _ hi (by intro t; rfl)) (running_emit _ _ _ hr)
  | call callee k ihc ihk =>
    intro self tid w hi hr
    rw [run_call]
    obtain ⟨w2, h2, hi2⟩ := ihc w.chans.length tid _ (inv_gro w hi) (running_gro w hi)
    rw [h2, Option.some_bind]
    exact ihk _ self tid w2 hi2 (running_after_callee w w2 self hr (run_frame _ _ _ _ _ h2))
  | co_await f k ih =>
    intro self tid w hi hr
    cases hs : w.slot f with
    | some o =>
      rw [run_co_await_ready f k self tid w o hs]
      exact ih o self tid w hi hr
    | none =>
      rw [run_co_await_pending f k self tid w hs]
      exact ⟨_, rfl, inv_suspend w self f tid k hi hr⟩

end

/-! ## The invariant along a schedule -/

section

variable {T E : Type}

@[simp] theorem retire_chans (w : World T E) (i : Nat) : (w.retire i).chans = w.chans := rfl
@[simp] theorem retire_log (w : World T E) (i : Nat) : (w.retire i).log = w.log := rfl
@[simp] theorem retire_slot (w : World T E) (i c : Nat) : (w.retire i).slot c = w.slot c := rfl
@[simp] theorem retire_owner (w : World T E) (i c : Nat) : (w.retire i).owner c = w.owner c := rfl
@[simp] theorem retire_length (w : World T E) (i : Nat) :
    (w.retire i).threads.length = w.threads.length := by
  simp [World.retire]

theorem retire_ne (w : World T E) (i j : Nat) (h : j ≠ i) :
    (w.retire i).threads[j]? = w.threads[j]? := by
  simp only [World.retire]
  exact List.getElem?_modify_ne _ _ (Ne.symm h)

theorem retire_self (w : World T E) (i : Nat) (th : Waiter T E) (h : w.threads[i]? = some th) :
    (w.retire i).threads[i]? = some { th with finished := true } := by
  simp only [World.retire, List.getElem?_modify_eq, h]
  rfl

/-- An unfinished waiter of the world after `retire i` is an unfinished waiter
of the world before, other than `i`. -/
theorem retire_unfinished (w : World T E) (i j : Nat) (th th1 : Waiter T E)
    (h : w.threads[i]? = some th) (h1 : (w.retire i).threads[j]? = some th1)
    (hf : th1.finished = false) : j ≠ i ∧ w.threads[j]? = some th1 := by
  by_cases hji : j = i
  · subst hji
    rw [retire_self w j th h] at h1
    simp only [Option.some.injEq] at h1
    subst h1
    exact absurd hf (by simp)
  · rw [retire_ne w i j hji] at h1
    exact ⟨hji, h1⟩

theorem inv_retire (w : World T E) (i : Nat) (th : Waiter T E) (hi : Inv w)
    (h : w.threads[i]? = some th) :
    Inv ((w.retire i).emit (.resume (i + 1) th.cont.promise)) where
  owned := fun j th1 h1 hf => by
    obtain ⟨_, hold⟩ := retire_unfinished w i j th th1 h h1 hf
    exact hi.owned j th1 hold hf
  unique := fun j1 j2 t1 t2 h1 h2 hf1 hf2 heq => by
    obtain ⟨_, ho1⟩ := retire_unfinished w i j1 th t1 h h1 hf1
    obtain ⟨_, ho2⟩ := retire_unfinished w i j2 th t2 h h2 hf2
    exact hi.unique j1 j2 t1 t2 ho1 ho2 hf1 hf2 heq
  fresh := fun t ht => by
    have hlen : w.threads.length < t := by simpa using ht
    have hil : i < w.threads.length := getElem?_some_lt _ _ _ h
    have hne : ¬ (i + 1 = t) := by omega
    have := hi.fresh t hlen
    simp [resumes, List.countP_append, List.countP_cons, Event.isResume, hne] at this ⊢
    exact this

theorem running_retire (w : World T E) (i : Nat) (th : Waiter T E) (hi : Inv w)
    (h : w.threads[i]? = some th) (hf : th.finished = false) :
    Running ((w.retire i).emit (.resume (i + 1) th.cont.promise)) th.cont.promise := by
  obtain ⟨ho, hs⟩ := hi.owned i th h hf
  refine ⟨ho, hs, ?_⟩
  intro j th1 h1 hf1 heq
  obtain ⟨hne, hold⟩ := retire_unfinished w i j th th1 h h1 hf1
  exact hne (hi.unique j i th1 th hold h hf1 hf heq)

theorem inv_resolve (w : World T E) (c : Nat) (o : Outcome T E) (hi : Inv w)
    (hc : w.owner c = some .external) : Inv (w.store c o) where
  owned := fun i th hth hf => by
    obtain ⟨ho, hs⟩ := hi.owned i th hth hf
    have hne : th.cont.promise ≠ c := by
      intro heq
      rw [heq, hc] at ho
      exact absurd ho (by simp)
    exact ⟨by simpa using ho, by rw [store_slot_ne w c _ o hne]; exact hs⟩
  unique := hi.unique
  fresh := hi.fresh

theorem inv_init (n : Nat) : Inv (World.init n : World T E) where
  owned := fun i th h _ => by simp [World.init] at h
  unique := fun i j thi thj h _ _ _ _ => by simp [World.init] at h
  fresh := fun _ _ => rfl

variable [CopyConstructible T E]

/-- Unfolding of a waiter that fires. -/
theorem waiter_fires (w : World T E) (i : Nat) (th : Waiter T E) (o : Outcome T E)
    (h : w.threads[i]? = some th) (hf : th.finished = false) (hs : w.slot th.src = some o) :
    waiter i w = run (th.cont.resume o) th.cont.promise (i + 1)
      ((w.retire i).emit (.resume (i + 1) th.cont.promise)) := by
  simp [waiter, h, hf, wait, hs]

/-- A waiter whose source is not ready stays blocked. -/
theorem waiter_blocked (w : World T E) (i : Nat) (th : Waiter T E)
    (h : w.threads[i]? = some th) (hs : w.slot th.src = none) : waiter i w = some w := by
  simp [waiter, h, wait, hs]

/-- A waiter that has fired does nothing more. -/
theorem waiter_finished (w : World T E) (i : Nat) (th : Waiter T E)
    (h : w.threads[i]? = some th) (hf : th.finished = true) : waiter i w = some w := by
  simp [waiter, h, hf]

theorem waiter_absent (w : World T E) (i : Nat) (h : w.threads[i]? = none) :
    waiter i w = some w := by
  simp [waiter, h]

theorem waiter_inv (w : World T E) (i : Nat) (hi : Inv w) :
    ∃ w1, waiter i w = some w1 ∧ Inv w1 := by
  cases h : w.threads[i]? with
  | none => exact ⟨w, waiter_absent w i h, hi⟩
  | some th =>
    cases hf : th.finished with
    | true => exact ⟨w, waiter_finished w i th h hf, hi⟩
    | false =>
      cases hs : w.slot th.src with
      | none => exact ⟨w, waiter_blocked w i th h hs, hi⟩
      | some o =>
        rw [waiter_fires w i th o h hf hs]
        exact run_inv _ _ _ _ (inv_retire w i th hi h) (running_retire w i th hi h hf)

theorem step_inv (w : World T E) (a : Action T E) (hi : Inv w) :
    ∃ w1, step w a = some w1 ∧ Inv w1 := by
  cases a with
  | resolve c o =>
    simp only [step]
    cases ho : w.owner c with
    | none => exact ⟨w, rfl, hi⟩
    | some ow =>
      cases ow with
      | task => exact ⟨w, rfl, hi⟩
      | external =>
        cases hs : w.slot c with
        | some o1 => exact ⟨w, rfl, hi⟩
        | none =>
          cases o with
          | value v =>
            exact ⟨_, rfl, inv_emit _ _ (inv_resolve w c _ hi ho) (by intro t; rfl)⟩
          | exception e =>
            exact ⟨_, rfl, inv_emit _ _ (inv_resolve w c _ hi ho) (by intro t; rfl)⟩
  | sched i => exact waiter_inv w i hi
  | spawn body =>
    obtain ⟨w1, h1, hi1⟩ := run_inv body w.chans.length 0 _ (inv_gro w hi) (running_gro w hi)
    refine ⟨w1, ?_, hi1⟩
    simp only [step, start, initial_suspend, gro_fst, h1, Option.map_some']

theorem exec_inv (acts : List (Action T E)) : ∀ (w : World T E), Inv w →
    ∃ w1, exec w acts = some w1 ∧ Inv w1 := by
  induction acts with
  | nil => exact fun w hi => ⟨w, rfl, hi⟩
  | cons a rest ih =>
    intro w hi
    obtain ⟨w1, h1, hi1⟩ := step_inv w a hi
    obtain ⟨w2, h2, hi2⟩ := ih w1 hi1
    exact ⟨w2, by simp only [exec, h1, h2], hi2⟩

theorem inv_samplePending : Inv samplePending := inv_gro _ (inv_init 1)

theorem running_samplePending : Running samplePending 1 := running_gro _ (inv_init 1)

theorem inv_sampleReady : Inv sampleReady :=
  inv_gro _ (inv_resolve (World.init 1) 0 _ (inv_init 1) rfl)

theorem running_sampleReady : Running sampleReady 1 :=
  running_gro _ (inv_resolve (World.init 1) 0 _ (inv_init 1) rfl)

theorem inv_sampleFailed : Inv sampleFailed :=
  inv_gro _ (inv_resolve (World.init 1) 0 _ (inv_init 1) rfl)

theorem running_sampleFailed : Running sampleFailed 1 :=
  running_gro _ (inv_resolve (World.init 1) 0 _ (inv_init 1) rfl)

end

/-! ## Properties closed under the elementary moves -/

section

variable {T E : Type} [CopyConstructible T E]

theorem run_closed (P : World T E → Prop) (hP : Closed P) (body : Body T E) :
    ∀ (self tid : Nat) (w w1 : World T E), run body self tid w = some w1 → P w → P w1 := by
  induction body with
  | co_return v =>
    intro self tid w w1 h hw
    simp only [run, return_value] at h
    cases hs : set_value self v w with
    | ok w2 =>
      simp only [hs, Option.some.injEq] at h
      obtain ⟨v1, _, hn, hlt, rfl⟩ := set_value_inv w w2 self v hs
      subst h
      simp only [finish, final_suspend]
      exact hP.fin _ self (.value v1) (hP.set w self (.value v1) hw hn hlt)
        (by simp [store_slot_self w self _ hlt])
    | error e =>
      simp only [hs, Option.map_eq_some'] at h
      obtain ⟨w2, hu, rfl⟩ := h
      obtain ⟨hn, hlt, rfl⟩ := unhandled_exception_inv w w2 self e hu
      simp only [finish, final_suspend]
      exact hP.fin _ self (.exception e) (hP.set w self (.exception e) hw hn hlt)
        (by simp [store_slot_self w self _ hlt])
  | throw e =>
    intro self tid w w1 h hw
    simp only [run, Option.map_eq_some'] at h
    obtain ⟨w2, hu, rfl⟩ := h
    obtain ⟨hn, hlt, rfl⟩ := unhandled_exception_inv w w2 self e hu
    simp only [finish, final_suspend]
    exact hP.fin _ self (.exception e) (hP.set w self (.exception e) hw hn hlt)
      (by simp [store_slot_self w self _ hlt])
  | sleep_for secs k ih =>
    intro self tid w w1 h hw
    simp only [run] at h
    exact ih self tid _ w1 h (hP.emit w _ hw rfl)
  | cout text v k ih =>
    intro self tid w w1 h hw
    simp only [run] at h
    exact ih self tid _ w1 h (hP.emit w _ hw rfl)
  | call callee k ihc ihk =>
    intro self tid w w1 h hw
    rw [run_call] at h
    cases hc : run callee w.chans.length tid (get_return_object w).2 with
    | none => simp [hc] at h
    | some w2 =>
      simp only [hc, Option.some_bind] at h
      exact ihk _ self tid w2 w1 h (ihc _ tid _ w2 hc (hP.gro w hw))
  | co_await f k ih =>
    intro self tid w w1 h hw
    cases hs : w.slot f with
    | some o =>
      rw [run_co_await_ready f k self tid w o hs] at h
      exact ih o self tid w w1 h hw
    | none =>
      rw [run_co_await_pending f k self tid w hs] at h
      simp only [Option.some.injEq] at h
      subst h
      exact hP.suspend w f tid _ hw hs

theorem waiter_closed (P : World T E → Prop) (hP : Closed P) (i : Nat) (w w1 : World T E)
    (h : waiter i w = some w1) (hw : P w) : P w1 := by
  cases ht : w.threads[i]? with
  | none =>
    rw [waiter_absent w i ht] at h
    simp only [Option.some.injEq] at h
    exact h ▸ hw
  | some th =>
    cases hf : th.finished with
    | true =>
      rw [waiter_finished w i th ht hf] at h
      simp only [Option.some.injEq] at h
      exact h ▸ hw
    | false =>
      cases hs : w.slot th.src with
      | none =>
        rw [waiter_blocked w i th ht hs] at h
        simp only [Option.some.injEq] at h
        exact h ▸ hw
      | some o =>
        rw [waiter_fires w i th o ht hf hs] at h
        exact run_closed P hP _ _ _ _ w1 h (hP.fire w i th o hw ht hf hs)

theorem step_closed (P : World T E → Prop) (hP : Closed P) (a : Action T E)
    (w w1 : World T E) (h : step w a = some w1) (hw : P w) : P w1 := by
  cases a with
  | resolve c o =>
    simp only [step] at h
    cases ho : w.owner c with
    | none =>
      simp only [ho, Option.some.injEq] at h
      exact h ▸ hw
    | some ow =>
      cases ow with
      | task =>
        simp only [ho, Option.some.injEq] at h
        exact h ▸ hw
      | external =>
        cases hs : w.slot c with
        | some o1 =>
          simp only [ho, hs, Option.some.injEq] at h
          exact h ▸ hw
        | none =>
          have hlt := owner_lt w c _ ho
          cases o with
          | value v =>
            simp only [ho, hs, Option.some.injEq] at h
            exact h ▸ hP.set w c (.value v) hw hs hlt
          | exception e =>
            simp only [ho, hs, Option.some.injEq] at h
            exact h ▸ hP.set w c (.exception e) hw hs hlt
  | sched i => exact waiter_closed P hP i w w1 h hw
  | spawn body =>
    simp only [step, start, initial_suspend, gro_fst, Option.map_map, Option.map_eq_some',
      Function.comp] at h
    obtain ⟨w2, h2, rfl⟩ := h
    exact run_closed P hP body _ _ _ _ h2 (hP.gro w hw)

theorem exec_closed (P : World T E → Prop) (hP : Closed P) (acts : List (Action T E)) :
    ∀ (w w1 : World T E), exec w acts = some w1 → P w → P w1 := by
  induction acts with
  | nil =>
    intro w w1 h hw
    simp only [exec, Option.some.injEq] at h
    exact h ▸ hw
  | cons a rest ih =>
    intro w w1 h hw
    simp only [exec] at h
    cases hs : step w a with
    | none => simp [hs] at h
    | some w2 =>
      simp only [hs] at h
      exact ih w2 w1 h (step_closed P hP a w w2 hs hw)

theorem exec_append (l1 l2 : List (Action T E)) : ∀ (w : World T E),
    exec w (l1 ++ l2) = (exec w l1).bind (fun w1 => exec w1 l2) := by
  induction l1 with
  | nil => intro w; rfl
  | cons a rest ih =>
    intro w
    simp only [List.cons_append, exec]
    cases step w a with
    | none => rfl
    | some w1 => exact ih w1

end

/-! ## Tracking one waiter -/

section

variable {T E : Type}

theorem quiet_not_resume (ev : Event T E) (t : Nat) (h : Event.isQuiet ev = true) :
    Event.isResume t ev = false := by
  cases ev <;> simp [Event.isQuiet] at h <;> rfl

theorem ofOutcome_not_resume (c t : Nat) (o : Outcome T E) :
    Event.isResume t (Event.ofOutcome c o) = false := by
  cases o <;> rfl

theorem resumes_snoc (t : Nat) (log : List (Event T E)) (ev : Event T E) :
    resumes t (log ++ [ev]) = resumes t log + (if Event.isResume t ev = true then 1 else 0) := by
  simp [resumes, List.countP_append, List.countP_cons]

theorem resumes_snoc_of_false (t : Nat) (log : List (Event T E)) (ev : Event T E)
    (h : Event.isResume t ev = false) : resumes t (log ++ [ev]) = resumes t log := by
  rw [resumes_snoc, h]
  rfl

theorem suspend_thread_old (w : World T E) (f tid i : Nat) (h : Handle T E) (th : Waiter T E)
    (hth : w.threads[i]? = some th) : (await_suspend f h tid w).threads[i]? = some th := by
  simp only [await_suspend]
  rw [List.getElem?_append_left (getElem?_some_lt _ _ _ hth)]
  exact hth

theorem suspend_resumes (w : World T E) (f tid t : Nat) (h : Handle T E) :
    resumes t (await_suspend f h tid w).log = resumes t w.log := by
  simp only [await_suspend]
  exact resumes_snoc_of_false t w.log _ rfl

@[simp] theorem suspend_slot (w : World T E) (f tid c : Nat) (h : Handle T E) :
    (await_suspend f h tid w).slot c = w.slot c := rfl

/-- A ready shared state is not touched by storing into an empty one. -/
theorem store_keeps (w : World T E) (c d : Nat) (o o1 : Outcome T E) (hc : w.slot c = none)
    (hd : w.slot d = some o1) : (w.store c o).slot d = some o1 := by
  have hne : d ≠ c := by
    intro heq
    rw [heq, hc] at hd
    exact absurd hd (by simp)
  rw [store_slot_ne w c d o hne]
  exact hd

theorem closed_slot (d : Nat) (o : Outcome T E) :
    Closed (fun w : World T E => w.slot d = some o) where
  emit := fun _ _ h _ => h
  set := fun w c o1 h hc _ => store_keeps w c d o1 o hc h
  fin := fun _ _ _ h _ => h
  gro := fun w h => by rw [gro_slot]; exact h
  suspend := fun _ _ _ _ h _ => h
  fire := fun _ _ _ _ h _ _ _ => h

theorem closed_holds (i src : Nat) (cont : Handle T E) :
    Closed (fun w : World T E => Holds i src cont w) where
  emit := fun _ _ h _ => h
  set := fun _ _ _ h _ _ => h
  fin := fun _ _ _ h _ => h
  gro := fun _ h => h
  suspend := fun w f tid hd h _ => by
    obtain ⟨th, h1, h2, h3⟩ := h
    exact ⟨th, suspend_thread_old w f tid i hd th h1, h2, h3⟩
  fire := fun w j thj _ h hj _ _ => by
    obtain ⟨th, h1, h2, h3⟩ := h
    by_cases hij : i = j
    · subst hij
      rw [h1] at hj
      simp only [Option.some.injEq] at hj
      subst hj
      exact ⟨_, retire_self w i th h1, h2, h3⟩
    · exact ⟨th, by simpa [retire_ne w j i hij] using h1, h2, h3⟩

theorem closed_fired (i : Nat) : Closed (fun w : World T E => Fired i w) where
  emit := fun w ev h hq => by
    obtain ⟨th, h1, h2, h3⟩ := h
    exact ⟨th, h1, h2, by
      rw [emit_log, resumes_snoc_of_false _ _ _ (quiet_not_resume ev _ hq)]; exact h3⟩
  set := fun w c o h _ _ => by
    obtain ⟨th, h1, h2, h3⟩ := h
    exact ⟨th, h1, h2, by
      rw [emit_log, resumes_snoc_of_false _ _ _ (ofOutcome_not_resume c _ o)]; exact h3⟩
  fin := fun w c _ h _ => by
    obtain ⟨th, h1, h2, h3⟩ := h
    exact ⟨th, h1, h2, by rw [emit_log, resumes_snoc_of_false _ _ _ (by rfl)]; exact h3⟩
  gro := fun _ h => h
  suspend := fun w f tid hd h _ => by
    obtain ⟨th, h1, h2, h3⟩ := h
    exact ⟨th, suspend_thread_old w f tid i hd th h1, h2, by rw [suspend_resumes]; exact h3⟩
  fire := fun w j thj _ h hj hfj _ => by
    obtain ⟨th, h1, h2, h3⟩ := h
    have hij : i ≠ j := by
      intro heq
      subst heq
      rw [h1] at hj
      simp only [Option.some.injEq] at hj
      subst hj
      rw [h2] at hfj
      exact absurd hfj (by simp)
    refine ⟨th, by simpa [retire_ne w j i hij] using h1, h2, ?_⟩
    rw [emit_log, retire_log, resumes_snoc_of_false]
    · exact h3
    · simp only [Event.isResume, beq_eq_false_iff_ne, ne_eq]
      omega

theorem closed_tracked (i f : Nat) : Closed (fun w : World T E => Tracked i f w) where
  emit := fun w ev h hq => by
    obtain ⟨th, h1, h2, h3⟩ := h
    refine ⟨th, h1, h2, ?_⟩
    rw [emit_log, resumes_snoc_of_false _ _ _ (quiet_not_resume ev _ hq)]
    exact h3
  set := fun w c o h hc _ => by
    obtain ⟨th, h1, h2, h3⟩ := h
    refine ⟨th, h1, h2, ?_⟩
    rw [emit_log, store_log, resumes_snoc_of_false _ _ _ (ofOutcome_not_resume c _ o)]
    rcases h3 with h3 | ⟨h3, h4, o1, h5⟩
    · exact Or.inl h3
    · exact Or.inr ⟨h3, h4, o1, store_keeps w c f o o1 hc h5⟩
  fin := fun w c _ h _ => by
    obtain ⟨th, h1, h2, h3⟩ := h
    refine ⟨th, h1, h2, ?_⟩
    rw [emit_log, resumes_snoc_of_false _ _ _ (by rfl)]
    exact h3
  gro := fun w h => by
    obtain ⟨th, h1, h2, h3⟩ := h
    refine ⟨th, h1, h2, ?_⟩
    simpa using h3
  suspend := fun w g tid hd h _ => by
    obtain ⟨th, h1, h2, h3⟩ := h
    refine ⟨th, suspend_thread_old w g tid i hd th h1, h2, ?_⟩
    rw [suspend_resumes]
    exact h3
  fire := fun w j thj o h hj hfj hs => by
    obtain ⟨th, h1, h2, h3⟩ := h
    by_cases hij : i = j
    · subst hij
      rw [h1] at hj
      simp only [Option.some.injEq] at hj
      subst hj
      refine ⟨_, retire_self w i th h1, h2, Or.inr ⟨rfl, ?_, o, ?_⟩⟩
      · rcases h3 with ⟨_, h4⟩ | ⟨h4, _⟩
        · rw [emit_log, retire_log, resumes_snoc, h4]
          simp [Event.isResume]
        · rw [h4] at hfj
          exact absurd hfj (by simp)
      · rw [← h2]
        exact hs
    · refine ⟨th, by simpa [retire_ne w j i hij] using h1, h2, ?_⟩
      have hne : Event.isResume (i + 1) (Event.resume (j + 1) thj.cont.promise : Event T E)
          = false := by
        simp only [Event.isResume, beq_eq_false_iff_ne, ne_eq]
        omega
      rw [emit_log, retire_log, resumes_snoc_of_false _ _ _ hne]
      exact h3

/-- The waiter just created by `await_suspend` is tracked. -/
theorem tracked_suspend (f self tid : Nat) (k : Outcome T E → Body T E) (w : World T E)
    (hInv : Inv w) :
    Tracked w.threads.length f (await_suspend f { promise := self, resume := k } tid w) := by
  refine ⟨{ src := f, cont := { promise := self, resume := k }, finished := false },
    by simp [await_suspend], rfl, Or.inl ⟨rfl, ?_⟩⟩
  rw [suspend_resumes]
  exact hInv.fresh _ (Nat.lt_succ_self _)

theorem holds_suspend (f tid : Nat) (h : Handle T E) (w : World T E) :
    Holds w.threads.length f h (await_suspend f h tid w) :=
  ⟨{ src := f, cont := h, finished := false }, by simp [await_suspend], rfl, rfl⟩

end

/-! ## The tally of the trace -/

section

variable {T E : Type}

theorem values_snoc (c : Nat) (log : List (Event T E)) (ev : Event T E) :
    values c (log ++ [ev]) = values c log + (if Event.isValue c ev = true then 1 else 0) := by
  simp [values, List.countP_append, List.countP_cons]

theorem failures_snoc (c : Nat) (log : List (Event T E)) (ev : Event T E) :
    failures c (log ++ [ev]) =
      failures c log + (if Event.isFailure c ev = true then 1 else 0) := by
  simp [failures, List.countP_append, List.countP_cons]

theorem finishes_snoc (c : Nat) (log : List (Event T E)) (ev : Event T E) :
    finishes c (log ++ [ev]) =
      finishes c log + (if Event.isFinished c ev = true then 1 else 0) := by
  simp [finishes, List.countP_append, List.countP_cons]

/-- An event that changes none of the three counts keeps the tally, as long as
the shared states are the same. -/
theorem tally_silent (w w1 : World T E) (ev : Event T E) (h : Tally w)
    (hslot : ∀ c, w1.slot c = w.slot c) (hlog : w1.log = w.log ++ [ev])
    (hv : ∀ c, Event.isValue c ev = false) (hx : ∀ c, Event.isFailure c ev = false)
    (hf : ∀ c, Event.isFinished c ev = false) : Tally w1 where
  empty := fun c hc => by
    rw [hslot] at hc
    rw [hlog, values_snoc, failures_snoc, finishes_snoc, hv, hx, hf]
    simpa using h.empty c hc
  value := fun c v hc => by
    rw [hslot] at hc
    rw [hlog, values_snoc, failures_snoc, hv, hx]
    simpa using h.value c v hc
  exception := fun c e hc => by
    rw [hslot] at hc
    rw [hlog, values_snoc, failures_snoc, hv, hx]
    simpa using h.exception c e hc

theorem quiet_silent (ev : Event T E) (h : Event.isQuiet ev = true) :
    (∀ c, Event.isValue c ev = false) ∧ (∀ c, Event.isFailure c ev = false) ∧
      (∀ c, Event.isFinished c ev = false) := by
  cases ev <;> simp [Event.isQuiet] at h <;> exact ⟨fun _ => rfl, fun _ => rfl, fun _ => rfl⟩

theorem tally_set (w : World T E) (c : Nat) (o : Outcome T E) (h : Tally w)
    (hc : w.slot c = none) (hlt : c < w.chans.length) :
    Tally ((w.store c o).emit (Event.ofOutcome c o)) := by
  have hself : (w.store c o).slot c = some o := store_slot_self w c o hlt
  obtain ⟨hv0, hx0, _⟩ := h.empty c hc
  have hother : ∀ d, d ≠ c →
      Event.isValue d (Event.ofOutcome c o) = false ∧
      Event.isFailure d (Event.ofOutcome c o) = false ∧
      Event.isFinished d (Event.ofOutcome c o) = false := by
    intro d hd
    have : ¬ (c = d) := fun heq => hd heq.symm
    cases o <;> simp [Event.ofOutcome, Event.isValue, Event.isFailure, Event.isFinished, this]
  constructor
  · intro d hd
    have hne : d ≠ c := by
      intro heq
      rw [emit_slot, heq, hself] at hd
      exact absurd hd (by simp)
    rw [emit_slot, store_slot_ne w c d o hne] at hd
    obtain ⟨h1, h2, h3⟩ := hother d hne
    rw [emit_log, store_log, values_snoc, failures_snoc, finishes_snoc, h1, h2, h3]
    simpa using h.empty d hd
  · intro d v hd
    by_cases hne : d = c
    · subst hne
      rw [emit_slot, hself] at hd
      simp only [Option.some.injEq] at hd
      subst hd
      rw [emit_log, store_log, values_snoc, failures_snoc, hv0, hx0]
      simp [Event.ofOutcome, Event.isValue, Event.isFailure]
    · rw [emit_slot, store_slot_ne w c d o hne] at hd
      obtain ⟨h1, h2, _⟩ := hother d hne
      rw [emit_log, store_log, values_snoc, failures_snoc, h1, h2]
      simpa using h.value d v hd
  · intro d e hd
    by_cases hne : d = c
    · subst hne
      rw [emit_slot, hself] at hd
      simp only [Option.some.injEq] at hd
      subst hd
      rw [emit_log, store_log, values_snoc, failures_snoc, hv0, hx0]
      simp [Event.ofOutcome, Event.isValue, Event.isFailure]
    · rw [emit_slot, store_slot_ne w c d o hne] at hd
      obtain ⟨h1, h2, _⟩ := hother d hne
      rw [emit_log, store_log, values_snoc, failures_snoc, h1, h2]
      simpa using h.exception d e hd

theorem tally_fin (w : World T E) (c : Nat) (o : Outcome T E) (h : Tally w)
    (hc : w.slot c = some o) : Tally (w.emit (.finished c)) where
  empty := fun d hd => by
    have hne : ¬ (c = d) := by
      intro heq
      rw [emit_slot, ← heq, hc] at hd
      exact absurd hd (by simp)
    rw [emit_log, values_snoc, failures_snoc, finishes_snoc]
    simpa [Event.isValue, Event.isFailure, Event.isFinished, hne] using h.empty d hd
  value := fun d v hd => by
    rw [emit_log, values_snoc, failures_snoc]
    simpa [Event.isValue, Event.isFailure] using h.value d v hd
  exception := fun d e hd => by
    rw [emit_log, values_snoc, failures_snoc]
    simpa [Event.isValue, Event.isFailure] using h.exception d e hd

theorem closed_tally : Closed (fun w : World T E => Tally w) where
  emit := fun w ev h hq => by
    obtain ⟨h1, h2, h3⟩ := quiet_silent ev hq
    exact tally_silent w _ ev h (fun _ => rfl) rfl h1 h2 h3
  set := fun w c o h hc hlt => tally_set w c o h hc hlt
  fin := fun w c o h hc => tally_fin w c o h hc
  gro := fun w h => ⟨fun c hc => by simpa using h.empty c (by simpa using hc),
    fun c v hc => by simpa using h.value c v (by simpa using hc),
    fun c e hc => by simpa using h.exception c e (by simpa using hc)⟩
  suspend := fun w f tid hd h _ =>
    tally_silent w _ _ h (fun _ => rfl) rfl (fun _ => rfl) (fun _ => rfl) (fun _ => rfl)
  fire := fun w i th _ h _ _ _ =>
    tally_silent w _ _ h (fun _ => rfl) rfl (fun _ => rfl) (fun _ => rfl) (fun _ => rfl)

theorem init_slot (n c : Nat) : (World.init n : World T E).slot c = none := by
  unfold World.slot World.init
  simp only [List.getElem?_replicate]
  by_cases h : c < n <;> simp [h]

theorem tally_init (n : Nat) : Tally (World.init n : World T E) where
  empty := fun _ _ => ⟨rfl, rfl, rfl⟩
  value := fun c v h => by
    rw [init_slot] at h
    exact absurd h (by simp)
  exception := fun c e h => by
    rw [init_slot] at h
    exact absurd h (by simp)

end

/-! ## The readiness probe and the ready path -/

section

variable {T E : Type}

theorem probe_same (f : Nat) (n : Nat) (w : World T E) :
    probe f n w = (List.replicate n (await_ready f w).1, w) := by
  induction n with
  | zero => rfl
  | succ n ih =>
    simp only [probe, await_ready_snd, ih, List.replicate_succ]

/-- C8: `await_ready` called `n` times in a row on the same future gives `n`
times the same answer and hands back the world it was given: the stored outcome
of the source, the set of threads and the trace are as before.  A single call
hands back the world as well.  The probe is a total function: it never blocks
(unlike `wait`, which has no result on a future that is not ready). -/
theorem await_ready_idempotent (f n : Nat) (w : World T E) :
    (probe f n w).1 = List.replicate n (await_ready f w).1 ∧
    (probe f n w).2 = w ∧
    (probe f n w).2.slot f = w.slot f ∧
    (probe f n w).2.threads = w.threads ∧
    (probe f n w).2.log = w.log ∧
    (await_ready f w).2 = w ∧
    (await_ready f w).1 = (w.slot f).isSome := by
  rw [probe_same]
  exact ⟨rfl, rfl, rfl, rfl, rfl, await_ready_snd f w, await_ready_fst f w⟩

/-- While `f` is ready, no waiter on `f` is created: among the threads from index
`n` on, none waits on `f`. -/
theorem closed_no_waiter_on (f n : Nat) (o : Outcome T E) :
    Closed (fun w : World T E => w.slot f = some o ∧
      ∀ (i : Nat) (th : Waiter T E), n ≤ i → w.threads[i]? = some th → th.src ≠ f) where
  emit := fun _ _ h _ => h
  set := fun w c o1 h hc _ => ⟨store_keeps w c f o1 o hc h.1, h.2⟩
  fin := fun _ _ _ h _ => h
  gro := fun w h => ⟨by rw [gro_slot]; exact h.1, h.2⟩
  suspend := fun w g tid hd h hg => by
    refine ⟨h.1, ?_⟩
    intro i th hi hth
    rcases getElem?_snoc_some _ _ _ _ hth with hold | ⟨_, hnew⟩
    · exact h.2 i th hi hold
    · subst hnew
      intro heq
      have h1 := h.1
      rw [← heq] at h1
      simp only at h1
      rw [hg] at h1
      exact absurd h1 (by simp)
  fire := fun w j thj _ h hj _ _ => by
    refine ⟨h.1, ?_⟩
    intro i th hi hth
    by_cases hij : i = j
    · subst hij
      rw [emit_threads, retire_self w i thj hj] at hth
      simp only [Option.some.injEq] at hth
      subst hth
      exact h.2 i thj hi hj
    · rw [emit_threads, retire_ne w j i hij] at hth
      exact h.2 i th hi hth

variable [CopyConstructible T E]

/-- C6: a running coroutine reaches `co_await` on a future `f` that is ready with
outcome `o`.  `await_ready` is true and changes nothing and `await_resume` yields
`o`.  The run does not suspend: it is the run of the continuation on `o`, on the
same thread, from the same world, and it is not the world `await_suspend` would
leave.  It returns normally; `f` keeps its outcome, none of the threads created
during it waits on `f`, and no continuation call is recorded.  What the
continuation does, happens on the current thread at once: one that returns `v`
completes the coroutine with `v`, one left by `e` completes it with `e` (both
without any new thread), and one that prints records the print for thread `tid`
right after the trace so far. -/
theorem ready_future_continues_inline (f self tid : Nat) (k : Outcome T E → Body T E)
    (w : World T E) (o : Outcome T E) (h : w.slot f = some o) (hInv : Inv w)
    (hRun : Running w self) :
    (await_ready f w).1 = true ∧ (await_ready f w).2 = w ∧
    await_resume f w = some o ∧
    run (.co_await f k) self tid w = run (k o) self tid w ∧
    run (.co_await f k) self tid w ≠
      some (await_suspend f { promise := self, resume := k } tid w) ∧
    (∃ w1, run (.co_await f k) self tid w = some w1 ∧ w1.slot f = some o ∧
      (∀ (i : Nat) (th : Waiter T E), w.threads.length ≤ i → w1.threads[i]? = some th →
        th.src ≠ f) ∧
      (∀ t, resumes t w1.log = resumes t w.log)) ∧
    (∀ v v1, k o = .co_return v → CopyConstructible.copy (E := E) v = .ok v1 →
      ∃ w1, run (.co_await f k) self tid w = some w1 ∧
        w1.log = w.log ++ [.set_value self v1, .finished self] ∧
        w1.slot self = some (.value v1) ∧ w1.threads = w.threads ∧
        spawns w1.log = spawns w.log) ∧
    (∀ e, k o = .throw e →
      ∃ w1, run (.co_await f k) self tid w = some w1 ∧
        w1.log = w.log ++ [.set_exception self e, .finished self] ∧
        w1.slot self = some (.exception e) ∧ w1.threads = w.threads ∧
        spawns w1.log = spawns w.log) ∧
    (∀ text v k2, k o = .cout text v k2 →
      run (.co_await f k) self tid w = run k2 self tid (w.emit (.cout tid text v))) := by
  have hlt : self < w.chans.length := owner_lt w _ _ hRun.1
  have heq := run_co_await_ready f k self tid w o h
  obtain ⟨w1, h1, _⟩ := run_inv (.co_await f k) self tid w hInv hRun
  have hP := run_closed _ (closed_no_waiter_on f w.threads.length o) _ self tid w w1 h1
    ⟨h, fun i th hi hth => by
      rw [List.getElem?_eq_none hi] at hth
      exact absurd hth (by simp)⟩
  refine ⟨?_, await_ready_snd f w, ?_, heq, ?_, ⟨w1, h1, hP.1, hP.2,
    (run_frame _ self tid w w1 h1).log⟩, ?_, ?_, ?_⟩
  · rw [await_ready_fst, h]
    rfl
  · rw [await_resume_eq_slot, h]
  · intro hsusp
    rw [h1] at hsusp
    simp only [Option.some.injEq] at hsusp
    exact hP.2 w.threads.length
      { src := f, cont := { promise := self, resume := k }, finished := false }
      (Nat.le_refl _) (by rw [hsusp]; simp [await_suspend]) rfl
  · intro v v1 hk hv
    rw [heq, hk, run_co_return_ok w self tid v v1 hRun.2.1 hlt hv]
    refine ⟨_, rfl, by simp, store_slot_self w self _ hlt, rfl, ?_⟩
    simp [spawns, List.countP_append, List.countP_cons, Event.isThread]
  · intro e hk
    rw [heq, hk, run_throw_ok w self tid e hRun.2.1 hlt]
    refine ⟨_, rfl, by simp, store_slot_self w self _ hlt, rfl, ?_⟩
    simp [spawns, List.countP_append, List.countP_cons, Event.isThread]
  · intro text v k2 hk
    rw [heq, hk]
    rfl

theorem ready_future_continues_inline_witness :
    (sampleReady.slot 0 = some (.value 7) ∧ Inv sampleReady ∧ Running sampleReady 1) ∧
    (∃ w1, run (.co_await 0 forward) 1 0 sampleReady = some w1 ∧
      w1.log = sampleReady.log ++ [.set_value 1 7, .finished 1] ∧
      w1.slot 1 = some (.value 7) ∧ w1.threads = sampleReady.threads ∧
      spawns w1.log = spawns sampleReady.log) ∧
    run (.co_await 0 forward) 1 0 sampleReady ≠
      some (await_suspend 0 { promise := 1, resume := forward } 0 sampleReady) ∧
    (run (.co_await 0 forward) 1 0 sampleReady).map (fun w1 => (w1.log, w1.threads.length)) =
      some ([.set_value 1 7, .finished 1], 0) :=
  ⟨⟨rfl, inv_sampleReady, running_sampleReady⟩,
    (ready_future_continues_inline 0 1 0 forward sampleReady (.value 7) rfl inv_sampleReady
      running_sampleReady).2.2.2.2.2.2.1 7 7 rfl rfl,
    (ready_future_continues_inline 0 1 0 forward sampleReady (.value 7) rfl inv_sampleReady
      running_sampleReady).2.2.2.2.1,
    rfl⟩

end

/-! ## The program of `coawait.cpp` -/

section

variable {T E : Type}

theorem slot_ge (w : World T E) (c : Nat) (h : w.chans.length ≤ c) : w.slot c = none := by
  unfold World.slot
  rw [List.getElem?_eq_none h]

variable [CopyConstructible T E]

/-- A body that sleeps and returns a value that can be copied completes at once:
its shared state holds the value, nothing else has changed, no thread was made. -/
theorem run_sleep_return (w : World T E) (self tid secs : Nat) (v v1 : T)
    (hv : CopyConstructible.copy (E := E) v = .ok v1)
    (hs : w.slot self = none) (hlt : self < w.chans.length) :
    ∃ w1, run (.sleep_for secs (.co_return v)) self tid w = some w1 ∧
      w1.slot self = some (.value v1) ∧ (∀ d, d ≠ self → w1.slot d = w.slot d) ∧
      w1.chans.length = w.chans.length ∧ w1.threads = w.threads ∧
      spawns w1.log = spawns w.log := by
  have h : run (.sleep_for secs (.co_return v)) self tid w =
      run (.co_return v) self tid (w.emit (.sleep_for tid secs)) := rfl
  rw [h, run_co_return_ok (w.emit _) self tid v v1 hs hlt hv]
  refine ⟨_, rfl, ?_, ?_, ?_, ?_, ?_⟩
  · exact store_slot_self (w.emit _) self _ hlt
  · intro d hd
    simp [store_slot_ne _ self d _ hd]
  · simp
  · simp
  · simp [spawns, List.countP_append, List.countP_cons, Event.isThread]

/-- The body of `asyncFunction` after its call, on a future that is ready with a
value: it prints the value and completes with it. -/
theorem run_rest_ready (w : World Int E) (self tid fut : Nat) (v : Int)
    (hf : w.slot fut = some (.value v)) (hs : w.slot self = none)
    (hlt : self < w.chans.length) :
    ∃ w1, run (asyncFunction.rest fut) self tid w = some w1 ∧
      w1.slot self = some (.value v) ∧ w1.threads = w.threads ∧
      spawns w1.log = spawns w.log := by
  have h : run (asyncFunction.rest fut) self tid w =
      run (.co_return v) self tid
        (w.emit (.cout tid "Async operation completed. Result: " v)) := by
    unfold asyncFunction.rest
    rw [run_co_await_ready fut _ self tid w _ hf]
    rfl
  rw [h, run_co_return_ok (w.emit _) self tid v v hs hlt rfl]
  refine ⟨_, rfl, ?_, ?_, ?_⟩
  · exact store_slot_self (w.emit _) self _ hlt
  · simp
  · simp [spawns, List.countP_append, List.countP_cons, Event.isThread]

/-- `asyncFunction` around any operation that sleeps and returns `v`: the call
completes both coroutines on the calling thread, and the handle holds `v`. -/
theorem start_async_function (w : World Int E) (tid secs : Nat) (v : Int) :
    ∃ w1, start (.call (.sleep_for secs (.co_return v)) asyncFunction.rest) tid w =
        some (w.chans.length, w1) ∧
      w1.slot w.chans.length = some (.value v) ∧ w1.threads = w.threads ∧
      spawns w1.log = spawns w.log := by
  have h0 : (get_return_object (get_return_object w).2).2.slot (w.chans.length + 1) = none := by
    rw [gro_slot, gro_slot]
    exact slot_ge w _ (Nat.le_succ _)
  obtain ⟨w2, h2, hs2, ho2, hl2, ht2, hp2⟩ :=
    run_sleep_return (get_return_object (get_return_object w).2).2 (w.chans.length + 1) tid
      secs v v rfl h0 (by simp)
  have hself : w2.slot w.chans.length = none := by
    rw [ho2 _ (by omega), gro_slot, gro_slot]
    exact slot_ge w _ (Nat.le_refl _)
  obtain ⟨w3, h3, hs3, ht3, hp3⟩ :=
    run_rest_ready w2 w.chans.length tid (w.chans.length + 1) v hs2 hself
      (by rw [hl2]; simp; omega)
  refine ⟨w3, ?_, hs3, ?_, ?_⟩
  · simp only [start, initial_suspend, gro_fst]
    rw [run_call]
    simp only [gro_length]
    rw [h2]
    simp only [Option.some_bind, h3, Option.map_some']
  · rw [ht3, ht2]
    rfl
  · rw [hp3, hp2]
    rfl

/-- C5: `main` returns 0 after printing `Async task result: 42`, and `consume()`
on the handle of `asyncFunction` yields 42.  More generally, whatever value `v`
the awaited operation returns (after any sleep), `consume()` on the handle of the
awaiting function yields `v`, and a `main` around it prints `v` last and
returns 0. -/
theorem consume_async_function_yields_42 (E : Type) :
    (∃ w : World Int E, main = Exit.returned 0 w ∧
      w.log.getLast? = some (.cout 0 "Async task result: " 42)) ∧
    (start asyncFunction 0 (World.init 0 : World Int E)).bind (fun r => consume r.1 r.2) =
      some (.value 42) ∧
    (∀ (w : World Int E) (secs : Nat) (v : Int),
      (start (.call (.sleep_for secs (.co_return v)) asyncFunction.rest) 0 w).bind
          (fun r => consume r.1 r.2) = some (.value v) ∧
      ∃ w1, mainWith (.call (.sleep_for secs (.co_return v)) asyncFunction.rest) w =
          Exit.returned 0 w1 ∧
        w1.log.getLast? = some (.cout 0 "Async task result: " v)) := by
  refine ⟨⟨_, rfl, rfl⟩, rfl, ?_⟩
  intro w secs v
  obtain ⟨w1, h1, hs1, _, _⟩ := start_async_function w 0 secs v
  refine ⟨?_, w1.emit (.cout 0 "Async task result: " v), ?_, ?_⟩
  · rw [h1]
    simp [hs1]
  · simp only [mainWith, h1, wait, hs1, get_eq_slot]
  · simp

end

/-! ## Eager start; `await_suspend` on a ready future -/

section

variable {T E : Type} [CopyConstructible T E]

/-- When the coroutine `self` stops running, it has either completed, with its
shared state ready, or it is held by a waiter that has not fired. -/
theorem run_done_or_suspended (body : Body T E) : ∀ (self tid : Nat) (w w1 : World T E),
    Inv w → Running w self → run body self tid w = some w1 →
    (∃ o, w1.slot self = some o) ∨
    (∃ (i : Nat) (th : Waiter T E), w1.threads[i]? = some th ∧ th.finished = false ∧
      th.cont.promise = self) := by
  induction body with
  | co_return v =>
    intro self tid w w1 _ hr h
    have hlt : self < w.chans.length := owner_lt w _ _ hr.1
    left
    cases hv : CopyConstructible.copy (E := E) v with
    | ok v1 =>
      rw [run_co_return_ok w self tid v v1 hr.2.1 hlt hv] at h
      simp only [Option.some.injEq] at h
      subst h
      exact ⟨_, store_slot_self w self _ hlt⟩
    | error e =>
      rw [run_co_return_copy_throws w self tid v e hr.2.1 hlt hv] at h
      simp only [Option.some.injEq] at h
      subst h
      exact ⟨_, store_slot_self w self _ hlt⟩
  | throw e =>
    intro self tid w w1 _ hr h
    have hlt : self < w.chans.length := owner_lt w _ _ hr.1
    rw [run_throw_ok w self tid e hr.2.1 hlt] at h
    simp only [Option.some.injEq] at h
    subst h
    exact Or.inl ⟨_, store_slot_self w self _ hlt⟩
  | sleep_for secs k ih =>
    intro self tid w w1 hi hr h
    simp only [run] at h
    exact ih self tid _ w1 (inv_emit _ _ hi (by intro t; rfl)) (running_emit _ _ _ hr) h
  | cout text v k ih =>
    intro self tid w w1 hi hr h
    simp only [run] at h
    exact ih self tid _ w1 (inv_emit _ _ hi (by intro t; rfl)) (running_emit _ _ _ hr) h
  | call callee k _ ihk =>
    intro self tid w w1 hi hr h
    rw [run_call] at h
    obtain ⟨w2, h2, hi2⟩ := run_inv callee w.chans.length tid _ (inv_gro w hi) (running_gro w hi)
    rw [h2, Option.some_bind] at h
    exact ihk _ self tid w2 w1 hi2
      (running_after_callee w w2 self hr (run_frame _ _ _ _ _ h2)) h
  | co_await f k ih =>
    intro self tid w w1 hi hr h
    cases hs : w.slot f with
    | some o =>
      rw [run_co_await_ready f k self tid w o hs] at h
      exact ih o self tid w w1 hi hr h
    | none =>
      rw [run_co_await_pending f k self tid w hs] at h
      simp only [Option.some.injEq] at h
      subst h
      exact Or.inr ⟨w.threads.length,
        { src := f, cont := { promise := self, resume := k }, finished := false },
        by simp [await_suspend], rfl, rfl⟩

/-- C10: tasks start eagerly (`initial_suspend` is `suspend_never`): when the call
of any coroutine returns its handle, the task has either completed, its shared
state ready, or it is suspended in a waiter.  `asyncOperation` never suspends:
its shared state holds 42 when its future is returned, without a new thread, so
`await_ready` on it is true; the handle of `asyncFunction` holds 42 when it is
returned, no thread has been created, and in `main` no thread ever exists. -/
theorem tasks_start_eagerly (E : Type) (body : Body Int E) (w : World Int E) (tid : Nat)
    (hw : Inv w) :
    initial_suspend = Suspend.suspend_never ∧
    (∃ w1, start body tid w = some (w.chans.length, w1) ∧
      ((∃ o, w1.slot w.chans.length = some o) ∨
       (∃ (i : Nat) (th : Waiter Int E), w1.threads[i]? = some th ∧ th.finished = false ∧
          th.cont.promise = w.chans.length))) ∧
    (∃ w1, start asyncOperation tid w = some (w.chans.length, w1) ∧
      w1.slot w.chans.length = some (.value 42) ∧ w1.threads = w.threads ∧
      spawns w1.log = spawns w.log ∧ (await_ready w.chans.length w1).1 = true) ∧
    (∃ w1, start asyncFunction tid w = some (w.chans.length, w1) ∧
      w1.slot w.chans.length = some (.value 42) ∧ w1.threads = w.threads ∧
      spawns w1.log = spawns w.log) ∧
    (∃ w1 : World Int E, main = Exit.returned 0 w1 ∧ w1.threads = [] ∧ spawns w1.log = 0) := by
  refine ⟨rfl, ?_, ?_, ?_, ⟨_, rfl, rfl, rfl⟩⟩
  · obtain ⟨w1, h1, _⟩ := run_inv body w.chans.length tid _ (inv_gro w hw) (running_gro w hw)
    refine ⟨w1, ?_, run_done_or_suspended body _ tid _ w1 (inv_gro w hw) (running_gro w hw) h1⟩
    simp only [start, initial_suspend, gro_fst, h1, Option.map_some']
  · obtain ⟨w1, h1, hs1, _, _, ht1, hp1⟩ :=
      run_sleep_return (get_return_object w).2 w.chans.length tid 2 (42 : Int) 42 rfl
        (by rw [gro_slot]; exact slot_ge w _ (Nat.le_refl _)) (by simp)
    refine ⟨w1, ?_, hs1, by rw [ht1]; rfl, by rw [hp1]; rfl, ?_⟩
    · simp only [start, initial_suspend, gro_fst, asyncOperation, h1, Option.map_some']
    · rw [await_ready_fst, hs1]
      rfl
  · exact start_async_function w tid 2 42

theorem tasks_start_eagerly_witness :
    Inv (World.init 0 : World Int String) ∧
    (initial_suspend = Suspend.suspend_never ∧
    (∃ w1, start asyncOperation 0 (World.init 0 : World Int String) =
        some ((World.init 0 : World Int String).chans.length, w1) ∧
      ((∃ o, w1.slot (World.init 0 : World Int String).chans.length = some o) ∨
       (∃ (i : Nat) (th : Waiter Int String), w1.threads[i]? = some th ∧
          th.finished = false ∧
          th.cont.promise = (World.init 0 : World Int String).chans.length))) ∧
    (∃ w1, start asyncOperation 0 (World.init 0 : World Int String) =
        some ((World.init 0 : World Int String).chans.length, w1) ∧
      w1.slot (World.init 0 : World Int String).chans.length = some (.value 42) ∧
      w1.threads = (World.init 0 : World Int String).threads ∧
      spawns w1.log = spawns (World.init 0 : World Int String).log ∧
      (await_ready (World.init 0 : World Int String).chans.length w1).1 = true) ∧
    (∃ w1, start asyncFunction 0 (World.init 0 : World Int String) =
        some ((World.init 0 : World Int String).chans.length, w1) ∧
      w1.slot (World.init 0 : World Int String).chans.length = some (.value 42) ∧
      w1.threads = (World.init 0 : World Int String).threads ∧
      spawns w1.log = spawns (World.init 0 : World Int String).log) ∧
    (∃ w1 : World Int String, main = Exit.returned 0 w1 ∧ w1.threads = [] ∧
      spawns w1.log = 0)) :=
  ⟨inv_init 0, tasks_start_eagerly String asyncOperation (World.init 0) 0 (inv_init 0)⟩

/-- C7 (as stated, refuted): the external future `0` is ready with 7 when
`await_suspend` is called from the main thread (thread 0) for the coroutine with
promise `1`.  The call records the creation of thread 1 and nothing else: no
continuation has been called, the waiter has not fired.  The continuation is
called later, by thread 1. -/
theorem await_suspend_defers_when_ready :
    sampleReady.slot 0 = some (.value 7) ∧
    (await_suspend 0 { promise := 1, resume := forward } 0 sampleReady).log = [.thread 0 1] ∧
    resumes 0 (await_suspend 0 { promise := 1, resume := forward } 0 sampleReady).log = 0 ∧
    (await_suspend 0 { promise := 1, resume := forward } 0 sampleReady).threads.map
      (fun th => th.finished) = [false] ∧
    (waiter 0 (await_suspend 0 { promise := 1, resume := forward } 0 sampleReady)).map
      (fun w => w.log) =
      some [.thread 0 1, .resume 1 1, .set_value 1 7, .finished 1] := by
  refine ⟨rfl, rfl, rfl, rfl, rfl⟩

/-- C7 (amended): when `await_suspend` is called on a future that is already
ready, it does not call the continuation: it records the creation of one new
thread and adds that waiter, not yet fired, exactly as for a future that is not
ready.  The continuation is called by the new thread, whose `wait()` returns at
once: the waiter resumes the coroutine with the stored outcome on thread
`threads.length + 1`. -/
theorem await_suspend_on_ready_future (f tid : Nat) (h : Handle T E) (w : World T E)
    (o : Outcome T E) (hready : w.slot f = some o) :
    (await_suspend f h tid w).log = w.log ++ [.thread tid (w.threads.length + 1)] ∧
    (∀ t, resumes t (await_suspend f h tid w).log = resumes t w.log) ∧
    (await_suspend f h tid w).threads =
      w.threads ++ [{ src := f, cont := h, finished := false }] ∧
    (await_suspend f h tid w).chans = w.chans ∧
    waiter w.threads.length (await_suspend f h tid w) =
      run (h.resume o) h.promise (w.threads.length + 1)
        (((await_suspend f h tid w).retire w.threads.length).emit
          (.resume (w.threads.length + 1) h.promise)) := by
  refine ⟨rfl, fun t => suspend_resumes w f tid t h, rfl, rfl, ?_⟩
  exact waiter_fires (await_suspend f h tid w) w.threads.length
    { src := f, cont := h, finished := false } o (by simp [await_suspend]) rfl hready

theorem await_suspend_on_ready_future_witness :
    sampleReady.slot 0 = some (.value 7) ∧
    ((await_suspend 0 { promise := 1, resume := forward } 0 sampleReady).log =
      sampleReady.log ++ [.thread 0 (sampleReady.threads.length + 1)] ∧
    (∀ t, resumes t (await_suspend 0 { promise := 1, resume := forward } 0 sampleReady).log =
      resumes t sampleReady.log) ∧
    (await_suspend 0 { promise := 1, resume := forward } 0 sampleReady).threads =
      sampleReady.threads ++
        [{ src := 0, cont := { promise := 1, resume := forward }, finished := false }] ∧
    (await_suspend 0 { promise := 1, resume := forward } 0 sampleReady).chans =
      sampleReady.chans ∧
    waiter sampleReady.threads.length
        (await_suspend 0 { promise := 1, resume := forward } 0 sampleReady) =
      run (forward (.value 7)) 1 (sampleReady.threads.length + 1)
        (((await_suspend 0 { promise := 1, resume := forward } 0 sampleReady).retire
            sampleReady.threads.length).emit
          (.resume (sampleReady.threads.length + 1) 1))) :=
  ⟨rfl, await_suspend_on_ready_future 0 0 { promise := 1, resume := forward } sampleReady
    (.value 7) rfl⟩

end

/-! ## Single assignment -/

section

variable {T E : Type}

theorem closed_owner (d : Nat) (ow : Owner) :
    Closed (fun w : World T E => w.owner d = some ow) where
  emit := fun _ _ h _ => h
  set := fun w c o h _ _ => by simpa using h
  fin := fun _ _ _ h _ => h
  gro := fun w h => by rw [gro_owner_old w d (owner_lt w d ow h)]; exact h
  suspend := fun _ _ _ _ h _ => h
  fire := fun _ _ _ _ h _ _ _ => h

theorem return_void_eq (self : Nat) (w : World Unit E) :
    return_void self w = return_value self () w := by
  unfold return_void return_value set_value_void set_value
  cases w.chans[self]? with
  | none => rfl
  | some ch =>
    dsimp only
    cases ch.state <;> rfl

theorem run_void_eq (body : Body Unit E) : ∀ (self tid : Nat) (w : World Unit E),
    run_void body self tid w = run body self tid w := by
  induction body with
  | co_return v =>
    intro self tid w
    cases v
    have h : return_void self w = return_value self PUnit.unit w := return_void_eq self w
    simp only [run_void, run, h]
    cases return_value self PUnit.unit w <;> rfl
  | throw e =>
    intro self tid w
    simp only [run_void, run]
  | sleep_for secs k ih =>
    intro self tid w
    simp only [run_void, run, ih]
  | cout text v k ih =>
    intro self tid w
    simp only [run_void, run, ih]
  | call callee k ihc ihk =>
    intro self tid w
    rw [run_call]
    simp only [run_void, initial_suspend, gro_fst, ihc]
    cases run callee w.chans.length tid (get_return_object w).2 with
    | none => rfl
    | some w2 => exact ihk _ self tid w2
  | co_await f k ih =>
    intro self tid w
    cases hs : w.slot f with
    | some o =>
      rw [run_co_await_ready f k self tid w o hs, ← ih o self tid w]
      simp [run_void, await_ready_fst, hs]
    | none =>
      rw [run_co_await_pending f k self tid w hs]
      simp [run_void, await_ready_fst, hs]

theorem waiter_void_eq (i : Nat) (w : World Unit E) : waiter_void i w = waiter i w := by
  cases h : w.threads[i]? with
  | none => simp [waiter_void, waiter, h]
  | some th =>
    cases hf : th.finished with
    | true => simp [waiter_void, waiter, h, hf]
    | false =>
      cases hs : w.slot th.src with
      | none => simp [waiter_void, waiter, h, hf, wait, hs]
      | some o => simp [waiter_void, waiter, h, hf, wait, hs, run_void_eq]

theorem step_void_eq (w : World Unit E) (a : Action Unit E) : step_void w a = step w a := by
  cases a with
  | resolve c o =>
    cases ho : w.owner c with
    | none => simp [step_void, step, ho]
    | some ow =>
      cases ow <;> cases hs : w.slot c <;> cases o <;> simp [step_void, step, ho, hs]
  | sched i => exact waiter_void_eq i w
  | spawn body => simp [step_void, step, start_void, start, initial_suspend, run_void_eq]

theorem exec_void_eq (acts : List (Action Unit E)) : ∀ (w : World Unit E),
    exec_void w acts = exec w acts := by
  induction acts with
  | nil => intro w; rfl
  | cons a rest ih =>
    intro w
    cases h : step w a with
    | none => simp [exec_void, exec, step_void_eq, h]
    | some w1 => simp [exec_void, exec, step_void_eq, h, ih]

variable [CopyConstructible T E]

/-- Along every schedule from an initial world: no abnormal termination, at most
one effective `set_value` or `set_exception` per shared state, exactly one for a
completed coroutine, and a new task ends with exactly one applied. -/
theorem exec_sets_once (n : Nat) (acts : List (Action T E)) :
    ∃ w : World T E, exec (World.init n) acts = some w ∧
      (∀ c, values c w.log + failures c w.log ≤ 1 ∧
        (0 < finishes c w.log →
          (∃ v, w.slot c = some (.value v) ∧ values c w.log = 1 ∧ failures c w.log = 0) ∨
          (∃ e, w.slot c = some (.exception e) ∧ values c w.log = 0 ∧
            failures c w.log = 1))) ∧
      (∀ (v v1 : T), CopyConstructible.copy (E := E) v = .ok v1 →
        ∃ w1, step w (.spawn (.co_return v)) = some w1 ∧
          w1.slot w.chans.length = some (.value v1) ∧
          values w.chans.length w1.log = 1 ∧ failures w.chans.length w1.log = 0 ∧
          finishes w.chans.length w1.log = 1) ∧
      (∀ (v : T) (e : Exc E), CopyConstructible.copy (E := E) v = .error e →
        ∃ w1, step w (.spawn (.co_return v)) = some w1 ∧
          w1.slot w.chans.length = some (.exception e) ∧
          values w.chans.length w1.log = 0 ∧ failures w.chans.length w1.log = 1 ∧
          finishes w.chans.length w1.log = 1) ∧
      (∀ (e : Exc E),
        ∃ w1, step w (.spawn (.throw e)) = some w1 ∧
          w1.slot w.chans.length = some (.exception e) ∧
          values w.chans.length w1.log = 0 ∧ failures w.chans.length w1.log = 1 ∧
          finishes w.chans.length w1.log = 1) := by
  obtain ⟨w, hw, _⟩ := exec_inv acts (World.init n : World T E) (inv_init n)
  have ht : Tally w := exec_closed _ closed_tally acts _ w hw (tally_init n)
  have hnone : (get_return_object w).2.slot w.chans.length = none := by
    rw [gro_slot]
    exact slot_ge w _ (Nat.le_refl _)
  have hlt : w.chans.length < (get_return_object w).2.chans.length := by simp
  have hf0 : finishes w.chans.length w.log = 0 :=
    (ht.empty _ (slot_ge w _ (Nat.le_refl _))).2.2
  have hspawn : ∀ (body : Body T E) (w1 : World T E),
      run body w.chans.length 0 (get_return_object w).2 = some w1 →
      step w (.spawn body) = some w1 := by
    intro body w1 h
    simp only [step, start, initial_suspend, gro_fst, h, Option.map_some']
  refine ⟨w, hw, ?_, ?_, ?_, ?_⟩
  · intro c
    cases hs : w.slot c with
    | none =>
      obtain ⟨h1, h2, h3⟩ := ht.empty c hs
      exact ⟨by omega, fun h => by omega⟩
    | some o =>
      cases o with
      | value v =>
        obtain ⟨h1, h2⟩ := ht.value c v hs
        exact ⟨by omega, fun _ => Or.inl ⟨v, rfl, h1, h2⟩⟩
      | exception e =>
        obtain ⟨h1, h2⟩ := ht.exception c e hs
        exact ⟨by omega, fun _ => Or.inr ⟨e, rfl, h1, h2⟩⟩
  · intro v v1 hv
    have hrun := run_co_return_ok (get_return_object w).2 w.chans.length 0 v v1 hnone hlt hv
    have hstep := hspawn _ _ hrun
    have ht1 := step_closed _ closed_tally _ w _ hstep ht
    have hs1 : ((((get_return_object w).2.store w.chans.length (.value v1)).emit
        (.set_value w.chans.length v1)).emit (.finished w.chans.length)).slot w.chans.length =
        some (.value v1) := store_slot_self _ _ _ hlt
    obtain ⟨h1, h2⟩ := ht1.value _ v1 hs1
    refine ⟨_, hstep, hs1, h1, h2, ?_⟩
    simp only [emit_log, store_log, gro_log, finishes_snoc, hf0, Event.isFinished]
    simp
  · intro v e hv
    have hrun :=
      run_co_return_copy_throws (get_return_object w).2 w.chans.length 0 v e hnone hlt hv
    have hstep := hspawn _ _ hrun
    have ht1 := step_closed _ closed_tally _ w _ hstep ht
    have hs1 : ((((get_return_object w).2.store w.chans.length (.exception e)).emit
        (.set_exception w.chans.length e)).emit (.finished w.chans.length)).slot
        w.chans.length = some (.exception e) := store_slot_self _ _ _ hlt
    obtain ⟨h1, h2⟩ := ht1.exception _ e hs1
    refine ⟨_, hstep, hs1, h1, h2, ?_⟩
    simp only [emit_log, store_log, gro_log, finishes_snoc, hf0, Event.isFinished]
    simp
  · intro e
    have hrun := run_throw_ok (get_return_object w).2 w.chans.length 0 e hnone hlt
    have hstep := hspawn _ _ hrun
    have ht1 := step_closed _ closed_tally _ w _ hstep ht
    have hs1 : ((((get_return_object w).2.store w.chans.length (.exception e)).emit
        (.set_exception w.chans.length e)).emit (.finished w.chans.length)).slot
        w.chans.length = some (.exception e) := store_slot_self _ _ _ hlt
    obtain ⟨h1, h2⟩ := ht1.exception _ e hs1
    refine ⟨_, hstep, hs1, h1, h2, ?_⟩
    simp only [emit_log, store_log, gro_log, finishes_snoc, hf0, Event.isFinished]
    simp

/-- C2: in every run (any number of external promises, any schedule of the moves
of `step`: task starts, external resolutions and waiter threads, each thread
running from one suspension point to the next) the program does not terminate
abnormally, and for every shared state at most one `set_value` or
`set_exception` has taken effect; for a coroutine that has completed exactly one
has, and its shared state holds that value or that exception.  From any such
state a new task ends with exactly one of the two applied: a body that returns
a value whose copy succeeds ends with the value (`return_value`), a body that
returns a value whose copy throws ends with the copy's exception, and a body
left by an exception ends with that exception (`unhandled_exception`).  The same
holds for coroutines returning `std::future<void>`, whose `co_return` goes
through `return_void`: a body that returns ends with the (empty) value, a body
left by an exception ends with that exception. -/
theorem promise_set_exactly_once (n : Nat) (acts : List (Action T E)) (m : Nat)
    (actsVoid : List (Action Unit E)) :
    (∃ w : World T E, exec (World.init n) acts = some w ∧
      (∀ c, values c w.log + failures c w.log ≤ 1 ∧
        (0 < finishes c w.log →
          (∃ v, w.slot c = some (.value v) ∧ values c w.log = 1 ∧ failures c w.log = 0) ∨
          (∃ e, w.slot c = some (.exception e) ∧ values c w.log = 0 ∧
            failures c w.log = 1))) ∧
      (∀ (v v1 : T), CopyConstructible.copy (E := E) v = .ok v1 →
        ∃ w1, step w (.spawn (.co_return v)) = some w1 ∧
          w1.slot w.chans.length = some (.value v1) ∧
          values w.chans.length w1.log = 1 ∧ failures w.chans.length w1.log = 0 ∧
          finishes w.chans.length w1.log = 1) ∧
      (∀ (v : T) (e : Exc E), CopyConstructible.copy (E := E) v = .error e →
        ∃ w1, step w (.spawn (.co_return v)) = some w1 ∧
          w1.slot w.chans.length = some (.exception e) ∧
          values w.chans.length w1.log = 0 ∧ failures w.chans.length w1.log = 1 ∧
          finishes w.chans.length w1.log = 1) ∧
      (∀ (e : Exc E),
        ∃ w1, step w (.spawn (.throw e)) = some w1 ∧
          w1.slot w.chans.length = some (.exception e) ∧
          values w.chans.length w1.log = 0 ∧ failures w.chans.length w1.log = 1 ∧
          finishes w.chans.length w1.log = 1)) ∧
    (∃ w : World Unit E, exec_void (World.init m) actsVoid = some w ∧
      (∀ c, values c w.log + failures c w.log ≤ 1 ∧
        (0 < finishes c w.log →
          (∃ v, w.slot c = some (.value v) ∧ values c w.log = 1 ∧ failures c w.log = 0) ∨
          (∃ e, w.slot c = some (.exception e) ∧ values c w.log = 0 ∧
            failures c w.log = 1))) ∧
      (∃ w1, step_void w (.spawn (.co_return ())) = some w1 ∧
        w1.log = w.log ++ [.set_value w.chans.length (), .finished w.chans.length] ∧
        w1.slot w.chans.length = some (.value ()) ∧
        values w.chans.length w1.log = 1 ∧ failures w.chans.length w1.log = 0 ∧
        finishes w.chans.length w1.log = 1) ∧
      (∀ (e : Exc E),
        ∃ w1, step_void w (.spawn (.throw e)) = some w1 ∧
          w1.slot w.chans.length = some (.exception e) ∧
          values w.chans.length w1.log = 0 ∧ failures w.chans.length w1.log = 1 ∧
          finishes w.chans.length w1.log = 1)) := by
  refine ⟨exec_sets_once n acts, ?_⟩
  obtain ⟨w, hw, hall, hret, _, hthrow⟩ := exec_sets_once (T := Unit) (E := E) m actsVoid
  refine ⟨w, by rw [exec_void_eq]; exact hw, hall, ?_, ?_⟩
  · obtain ⟨w1, h1, h2, h3, h4, h5⟩ := hret () () rfl
    refine ⟨w1, by rw [step_void_eq]; exact h1, ?_, h2, h3, h4, h5⟩
    have hrun := run_co_return_ok (get_return_object w).2 w.chans.length 0 () ()
      (by rw [gro_slot]; exact slot_ge w _ (Nat.le_refl _)) (by simp) rfl
    simp only [step, start, initial_suspend, gro_fst, hrun, Option.map_some',
      Option.some.injEq] at h1
    subst h1
    simp
  · intro e
    obtain ⟨w1, h1, h2⟩ := hthrow e
    exact ⟨w1, by rw [step_void_eq]; exact h1, h2⟩

end

/-! ## Exactly one resumption -/

section

variable {T E : Type} [CopyConstructible T E]

theorem promise_set_exactly_once_witness :
    (∃ w : World Fragile String, exec (World.init 0) [] = some w ∧
      ∃ w1, step w (.spawn (.co_return Fragile.mk)) = some w1 ∧
        w1.slot w.chans.length = some (.exception (.user "bad copy")) ∧
        values w.chans.length w1.log = 0 ∧ failures w.chans.length w1.log = 1) ∧
    (∃ w : World Unit String, exec_void (World.init 0) [] = some w ∧
      ∃ w1, step_void w (.spawn (.co_return ())) = some w1 ∧
        w1.log = w.log ++ [.set_value w.chans.length (), .finished w.chans.length] ∧
        w1.slot w.chans.length = some (.value ())) ∧
    (exec_void (World.init 0 : World Unit String) [.spawn (.co_return ())]).map
      (fun w => (w.log, w.slot 0)) =
      some ([.set_value 0 (), .finished 0], some (.value ())) := by
  obtain ⟨⟨w, hw, _, _, hthrow, _⟩, wv, hwv, _, ⟨w2, g1, g2, g3, _⟩, _⟩ :=
    promise_set_exactly_once (T := Fragile) (E := String) 0 [] 0 []
  obtain ⟨w1, h1, h2, h3, h4, _⟩ := hthrow Fragile.mk (.user "bad copy") rfl
  exact ⟨⟨w, hw, w1, h1, h2, h3, h4⟩, ⟨wv, hwv, w2, g1, g2, g3⟩, rfl⟩

/-- Scheduling a tracked waiter whose source is ready leaves it fired. -/
theorem sched_fires (i f : Nat) (w : World T E) (o : Outcome T E) (hInv : Inv w)
    (ht : Tracked i f w) (hs : w.slot f = some o) :
    ∃ w1, step w (.sched i) = some w1 ∧ Inv w1 ∧ Fired i w1 := by
  obtain ⟨w1, h1, hi1⟩ := waiter_inv w i hInv
  refine ⟨w1, h1, hi1, ?_⟩
  obtain ⟨th, hth, hsrc, hcase⟩ := ht
  rcases hcase with ⟨hf, hr⟩ | ⟨hf, hr, _⟩
  · rw [waiter_fires w i th o hth hf (by rw [hsrc]; exact hs)] at h1
    refine run_closed _ (closed_fired i) _ _ _ _ w1 h1 ⟨_, retire_self w i th hth, rfl, ?_⟩
    rw [emit_log, retire_log, resumes_snoc, hr]
    simp [Event.isResume]
  · rw [waiter_finished w i th hth hf] at h1
    simp only [Option.some.injEq] at h1
    subst h1
    exact ⟨th, hth, hf, hr⟩

/-- C3: `await_suspend`, called for a running coroutine on a future `f` that may
or may not be ready, adds exactly one thread (a waiter on `f` holding the
continuation), different from the calling thread, and calls no continuation
itself.  In every schedule that follows, the program keeps running and the new
thread has called its continuation at most once, and not at all as long as `f` is
not ready.  Scheduled while `f` is not ready, the new thread does nothing
(`wait()` blocks), and scheduled after its call it does nothing either.  When it
is scheduled with `f` ready and has not called yet, its move is the call: it records it and runs the continuation `k` on the
outcome of `f`, on the new thread.  Once `f` is ready, scheduling the new thread
makes the number of calls exactly one, and it stays exactly one whatever
follows. -/
theorem waiter_calls_continuation_once (f self tid : Nat) (k : Outcome T E → Body T E)
    (w : World T E) (hInv : Inv w) (hRun : Running w self) (htid : tid ≤ w.threads.length) :
    (await_suspend f { promise := self, resume := k } tid w).threads =
      w.threads ++ [{ src := f, cont := { promise := self, resume := k }, finished := false }] ∧
    spawns (await_suspend f { promise := self, resume := k } tid w).log = spawns w.log + 1 ∧
    w.threads.length + 1 ≠ tid ∧
    (∀ t, resumes t (await_suspend f { promise := self, resume := k } tid w).log =
      resumes t w.log) ∧
    (∀ acts, ∃ w2,
      exec (await_suspend f { promise := self, resume := k } tid w) acts = some w2 ∧
      resumes (w.threads.length + 1) w2.log ≤ 1 ∧
      (w2.slot f = none → resumes (w.threads.length + 1) w2.log = 0)) ∧
    (∀ acts w2,
      exec (await_suspend f { promise := self, resume := k } tid w) acts = some w2 →
      (w2.slot f = none ∨ resumes (w.threads.length + 1) w2.log = 1) →
      step w2 (.sched w.threads.length) = some w2) ∧
    (∀ acts w2 o,
      exec (await_suspend f { promise := self, resume := k } tid w) acts = some w2 →
      w2.slot f = some o → resumes (w.threads.length + 1) w2.log = 0 →
      step w2 (.sched w.threads.length) =
        run (k o) self (w.threads.length + 1)
          ((w2.retire w.threads.length).emit (.resume (w.threads.length + 1) self)) ∧
      resumes (w.threads.length + 1)
        ((w2.retire w.threads.length).emit (.resume (w.threads.length + 1) self)).log = 1) ∧
    (∀ acts1 acts2 w2 o,
      exec (await_suspend f { promise := self, resume := k } tid w) acts1 = some w2 →
      w2.slot f = some o →
      ∃ w3, exec (await_suspend f { promise := self, resume := k } tid w)
          (acts1 ++ .sched w.threads.length :: acts2) = some w3 ∧
        resumes (w.threads.length + 1) w3.log = 1) := by
  have hInv1 := inv_suspend w self f tid k hInv hRun
  have hTr1 := tracked_suspend f self tid k w hInv
  refine ⟨rfl, ?_, by omega, fun t => suspend_resumes w f tid t _, ?_, ?_, ?_, ?_⟩
  · simp [await_suspend, spawns, List.countP_append, List.countP_cons, Event.isThread]
  · intro acts
    obtain ⟨w2, h2, _⟩ := exec_inv acts _ hInv1
    have hTr2 : Tracked w.threads.length f w2 :=
      exec_closed _ (closed_tracked w.threads.length f) acts _ w2 h2 hTr1
    obtain ⟨th, _, _, hcase⟩ := hTr2
    refine ⟨w2, h2, ?_, ?_⟩
    · rcases hcase with ⟨_, hr⟩ | ⟨_, hr, _⟩ <;> omega
    · intro hnone
      rcases hcase with ⟨_, hr⟩ | ⟨_, _, o, ho⟩
      · exact hr
      · rw [hnone] at ho
        exact absurd ho (by simp)
  · intro acts w2 h2 hcase2
    have hTr2 : Tracked w.threads.length f w2 :=
      exec_closed _ (closed_tracked w.threads.length f) acts _ w2 h2 hTr1
    obtain ⟨th, hth, hsrc, hcase⟩ := hTr2
    rcases hcase2 with hnone | hone
    · exact waiter_blocked w2 w.threads.length th hth (by rw [hsrc]; exact hnone)
    · rcases hcase with ⟨_, hr⟩ | ⟨hf, _, _⟩
      · omega
      · exact waiter_finished w2 w.threads.length th hth hf
  · intro acts w2 o h2 hs hzero
    have hTr2 : Tracked w.threads.length f w2 :=
      exec_closed _ (closed_tracked w.threads.length f) acts _ w2 h2 hTr1
    have hH2 : Holds w.threads.length f { promise := self, resume := k } w2 :=
      exec_closed _ (closed_holds _ f _) acts _ w2 h2 (holds_suspend f tid _ w)
    obtain ⟨th, hth, hsrc, hcase⟩ := hTr2
    obtain ⟨th1, hth1, _, hcont⟩ := hH2
    rw [hth] at hth1
    simp only [Option.some.injEq] at hth1
    subst hth1
    have hfin : th.finished = false := by
      rcases hcase with ⟨hf, _⟩ | ⟨_, hr, _⟩
      · exact hf
      · omega
    refine ⟨?_, ?_⟩
    · have hfire := waiter_fires w2 w.threads.length th o hth hfin (by rw [hsrc]; exact hs)
      rw [hcont] at hfire
      exact hfire
    · rw [emit_log, retire_log, resumes_snoc, hzero]
      simp [Event.isResume]
  · intro acts1 acts2 w2 o h2 hs
    obtain ⟨w2a, h2a, hInv2⟩ := exec_inv acts1 _ hInv1
    rw [h2] at h2a
    simp only [Option.some.injEq] at h2a
    subst h2a
    have hTr2 : Tracked w.threads.length f w2 :=
      exec_closed _ (closed_tracked w.threads.length f) acts1 _ w2 h2 hTr1
    obtain ⟨w3, h3, hInv3, hF3⟩ := sched_fires w.threads.length f w2 o hInv2 hTr2 hs
    obtain ⟨w4, h4, _⟩ := exec_inv acts2 w3 hInv3
    have hF4 : Fired w.threads.length w4 :=
      exec_closed _ (closed_fired w.threads.length) acts2 w3 w4 h4 hF3
    refine ⟨w4, ?_, ?_⟩
    · rw [exec_append, h2, Option.some_bind]
      simp only [exec, h3, h4]
    · obtain ⟨_, _, _, hr⟩ := hF4
      exact hr

theorem waiter_calls_continuation_once_witness :
    (Inv samplePending ∧ Running samplePending 1 ∧ 0 ≤ samplePending.threads.length) ∧
    (∃ w3, exec (await_suspend 0 { promise := 1, resume := forward } 0 samplePending)
        ([.resolve 0 (.value 7)] ++ .sched samplePending.threads.length :: []) = some w3 ∧
      resumes (samplePending.threads.length + 1) w3.log = 1) ∧
    step (await_suspend 0 { promise := 1, resume := forward } 0 samplePending)
        (.sched samplePending.threads.length) =
      some (await_suspend 0 { promise := 1, resume := forward } 0 samplePending) ∧
    (Inv sampleReady ∧ Running sampleReady 1 ∧ 0 ≤ sampleReady.threads.length) ∧
    (step (await_suspend 0 { promise := 1, resume := forward } 0 sampleReady)
        (.sched sampleReady.threads.length) =
      run (forward (.value 7)) 1 (sampleReady.threads.length + 1)
        (((await_suspend 0 { promise := 1, resume := forward } 0 sampleReady).retire
          sampleReady.threads.length).emit (.resume (sampleReady.threads.length + 1) 1)) ∧
      resumes (sampleReady.threads.length + 1)
        (((await_suspend 0 { promise := 1, resume := forward } 0 sampleReady).retire
          sampleReady.threads.length).emit
            (.resume (sampleReady.threads.length + 1) 1)).log = 1) ∧
    (step (await_suspend 0 { promise := 1, resume := forward } 0 sampleReady)
        (.sched 0)).map (fun w3 => (w3.log, w3.slot 1)) =
      some ([.thread 0 1, .resume 1 1, .set_value 1 7, .finished 1], some (.value 7)) :=
  ⟨⟨inv_samplePending, running_samplePending, Nat.zero_le _⟩,
    (waiter_calls_continuation_once 0 1 0 forward samplePending inv_samplePending
      running_samplePending (Nat.zero_le _)).2.2.2.2.2.2.2 [.resolve 0 (.value 7)] [] _
      (.value 7) rfl rfl,
    (waiter_calls_continuation_once 0 1 0 forward samplePending inv_samplePending
      running_samplePending (Nat.zero_le _)).2.2.2.2.2.1 [] _ rfl (Or.inl rfl),
    ⟨inv_sampleReady, running_sampleReady, Nat.zero_le _⟩,
    (waiter_calls_continuation_once 0 1 0 forward sampleReady inv_sampleReady
      running_sampleReady (Nat.zero_le _)).2.2.2.2.2.2.1 [] _ (.value 7) rfl rfl rfl,
    rfl⟩

end

/-! ## The suspend/resume round trip -/

section

variable {T E : Type}

/-- An external producer storing into its empty shared state. -/
theorem resolve_pending (w w1 : World T E) (c : Nat) (o : Outcome T E)
    (ho : w.owner c = some .external) :
    w1 = (w.store c o).emit (Event.ofOutcome c o) → w1.slot c = some o := by
  intro h
  subst h
  exact store_slot_self w c o (owner_lt w c _ ho)

variable [CopyConstructible T E]

theorem step_resolve_pending (w : World T E) (c : Nat) (o : Outcome T E)
    (ho : w.owner c = some .external) (hs : w.slot c = none) :
    step w (.resolve c o) = some ((w.store c o).emit (Event.ofOutcome c o)) := by
  cases o <;> simp [step, ho, hs, Event.ofOutcome]

/-- A waiter created on a pending external future, the future resolved later
with outcome `o`, the waiter not yet fired afterwards: the future still holds
`o`, and the waiter resumes its coroutine with `o`. -/
theorem waiter_delivers (f tid : Nat) (h : Handle T E) (o : Outcome T E)
    (w wa wb wc : World T E) (acts1 acts2 : List (Action T E))
    (hext : w.owner f = some .external)
    (h1 : exec (await_suspend f h tid w) acts1 = some wa) (hstill : wa.slot f = none)
    (h2 : step wa (.resolve f o) = some wb) (h3 : exec wb acts2 = some wc)
    (hnot : ∃ th : Waiter T E, wc.threads[w.threads.length]? = some th ∧ th.finished = false) :
    wb.slot f = some o ∧ wc.slot f = some o ∧
    waiter w.threads.length wc = run (h.resume o) h.promise (w.threads.length + 1)
      ((wc.retire w.threads.length).emit (.resume (w.threads.length + 1) h.promise)) := by
  have hoa : wa.owner f = some .external :=
    exec_closed _ (closed_owner f .external) acts1 _ wa h1 hext
  have hb : wb.slot f = some o := by
    rw [step_resolve_pending wa f o hoa hstill] at h2
    simp only [Option.some.injEq] at h2
    exact resolve_pending wa wb f o hoa h2.symm
  have hc : wc.slot f = some o := exec_closed _ (closed_slot f o) acts2 wb wc h3 hb
  have hH : Holds w.threads.length f h wc :=
    exec_closed _ (closed_holds _ f h) acts2 wb wc h3
      (step_closed _ (closed_holds _ f h) _ wa wb h2
        (exec_closed _ (closed_holds _ f h) acts1 _ wa h1 (holds_suspend f tid h w)))
  obtain ⟨th, hth, hsrc, hcont⟩ := hH
  obtain ⟨th1, hth1, hfin⟩ := hnot
  rw [hth] at hth1
  simp only [Option.some.injEq] at hth1
  subst hth1
  refine ⟨hb, hc, ?_⟩
  rw [waiter_fires wc w.threads.length th o hth hfin (by rw [hsrc]; exact hc), hcont]

/-- C4: a coroutine reaches `co_await` on an external future `f` that is not
ready: `await_ready` is false and the coroutine is suspended in a new waiter.
After any further moves that leave `f` empty, the producer sets the value `v`;
after any further moves in which the waiter has not yet fired, the future holds
`v`, `await_resume` yields `v`, and the waiter resumes the coroutine with exactly
`v` bound to the `co_await` expression. -/
theorem co_await_round_trip (f self tid : Nat) (k : Outcome T E → Body T E) (v : T)
    (w wa wb wc : World T E) (acts1 acts2 : List (Action T E))
    (hpend : w.slot f = none) (hext : w.owner f = some .external)
    (h1 : exec (await_suspend f { promise := self, resume := k } tid w) acts1 = some wa)
    (hstill : wa.slot f = none)
    (h2 : step wa (.resolve f (.value v)) = some wb)
    (h3 : exec wb acts2 = some wc)
    (hnot : ∃ th : Waiter T E, wc.threads[w.threads.length]? = some th ∧ th.finished = false) :
    (await_ready f w).1 = false ∧
    run (.co_await f k) self tid w =
      some (await_suspend f { promise := self, resume := k } tid w) ∧
    wb.slot f = some (.value v) ∧
    await_resume f wc = some (.value v) ∧
    waiter w.threads.length wc = run (k (.value v)) self (w.threads.length + 1)
      ((wc.retire w.threads.length).emit (.resume (w.threads.length + 1) self)) := by
  obtain ⟨hb, hc, hw⟩ :=
    waiter_delivers f tid { promise := self, resume := k } (.value v) w wa wb wc acts1 acts2
      hext h1 hstill h2 h3 hnot
  refine ⟨?_, run_co_await_pending f k self tid w hpend, hb, ?_, hw⟩
  · rw [await_ready_fst, hpend]
    rfl
  · rw [await_resume_eq_slot]
    exact hc

theorem co_await_round_trip_witness :
    (samplePending.slot 0 = none ∧ samplePending.owner 0 = some .external) ∧
    ((await_ready 0 samplePending).1 = false ∧
     run (.co_await 0 forward) 1 0 samplePending =
       some (await_suspend 0 { promise := 1, resume := forward } 0 samplePending) ∧
     ((await_suspend 0 { promise := 1, resume := forward } 0 samplePending).store 0
        (.value 7)).slot 0 = some (.value 7) ∧
     await_resume 0
       (((await_suspend 0 { promise := 1, resume := forward } 0 samplePending).store 0
          (.value 7)).emit (.set_value 0 7)) = some (.value 7) ∧
     waiter samplePending.threads.length
       (((await_suspend 0 { promise := 1, resume := forward } 0 samplePending).store 0
          (.value 7)).emit (.set_value 0 7)) =
       run (forward (.value 7)) 1 (samplePending.threads.length + 1)
         (((((await_suspend 0 { promise := 1, resume := forward } 0 samplePending).store 0
            (.value 7)).emit (.set_value 0 7)).retire samplePending.threads.length).emit
           (.resume (samplePending.threads.length + 1) 1))) :=
  ⟨⟨rfl, rfl⟩,
    co_await_round_trip 0 1 0 forward 7 samplePending
      (await_suspend 0 { promise := 1, resume := forward } 0 samplePending)
      (((await_suspend 0 { promise := 1, resume := forward } 0 samplePending).store 0
        (.value 7)).emit (.set_value 0 7))
      (((await_suspend 0 { promise := 1, resume := forward } 0 samplePending).store 0
        (.value 7)).emit (.set_value 0 7))
      [] [] rfl rfl rfl rfl rfl rfl
      ⟨{ src := 0, cont := { promise := 1, resume := forward }, finished := false }, rfl, rfl⟩⟩

end

/-! ## Failures -/

section

variable {T E : Type} [CopyConstructible T E]

theorem exec_inv_of (acts : List (Action T E)) (w w1 : World T E) (hInv : Inv w)
    (h : exec w acts = some w1) : Inv w1 := by
  obtain ⟨w2, h2, hi2⟩ := exec_inv acts w hInv
  rw [h] at h2
  simp only [Option.some.injEq] at h2
  exact h2 ▸ hi2

theorem step_inv_of (a : Action T E) (w w1 : World T E) (hInv : Inv w)
    (h : step w a = some w1) : Inv w1 := by
  obtain ⟨w2, h2, hi2⟩ := step_inv w a hInv
  rw [h] at h2
  simp only [Option.some.injEq] at h2
  exact h2 ▸ hi2

/-- C1: a coroutine awaits `f` with a body that does not handle the exception `e`
(it continues with `throw e`).
* If `f` has already failed with `e`, `await_resume` rethrows `e` in the body,
  `unhandled_exception` stores it, and the run goes on normally: the handle of the
  coroutine holds `e`, and `consume()` on it rethrows `e`.
* If `f` is an external future that fails with `e` only after the coroutine was
  suspended, the waiter thread that resumes the coroutine ends normally as well,
  with `e` in the handle of the coroutine.
* If the awaited operation is itself a task left by `e`, the inner handle holds
  `e`, and so does the outer one.
In no case does the run of the body terminate the program. -/
theorem unhandled_failure_reaches_consumer (f self tid : Nat) (k : Outcome T E → Body T E)
    (e : Exc E) (w : World T E) (hk : k (.exception e) = .throw e) (hInv : Inv w)
    (hRun : Running w self) :
    (w.slot f = some (.exception e) →
      await_resume f w = some (.exception e) ∧
      ∃ w1, run (.co_await f k) self tid w = some w1 ∧
        w1.log = w.log ++ [.set_exception self e, .finished self] ∧
        w1.slot self = some (.exception e) ∧ consume self w1 = some (.exception e)) ∧
    (∀ (wa wb wc : World T E) (acts1 acts2 : List (Action T E)),
      w.slot f = none → w.owner f = some .external →
      exec (await_suspend f { promise := self, resume := k } tid w) acts1 = some wa →
      wa.slot f = none →
      step wa (.resolve f (.exception e)) = some wb →
      exec wb acts2 = some wc →
      (∃ th : Waiter T E, wc.threads[w.threads.length]? = some th ∧ th.finished = false) →
      run (.co_await f k) self tid w =
        some (await_suspend f { promise := self, resume := k } tid w) ∧
      await_resume f wc = some (.exception e) ∧
      ∃ wd, waiter w.threads.length wc = some wd ∧
        wd.log = wc.log ++ [.resume (w.threads.length + 1) self, .set_exception self e,
          .finished self] ∧
        wd.slot self = some (.exception e) ∧ consume self wd = some (.exception e)) ∧
    (∀ kk : Nat → Outcome T E → Body T E, (∀ fut, kk fut (.exception e) = .throw e) →
      ∃ w1, run (.call (.throw e) (fun fut => .co_await fut (kk fut))) self tid w = some w1 ∧
        w1.log = w.log ++ [.set_exception w.chans.length e, .finished w.chans.length,
          .set_exception self e, .finished self] ∧
        w1.slot w.chans.length = some (.exception e) ∧
        w1.slot self = some (.exception e) ∧ consume self w1 = some (.exception e)) := by
  have hlt : self < w.chans.length := owner_lt w _ _ hRun.1
  refine ⟨?_, ?_, ?_⟩
  · intro hf
    refine ⟨by rw [await_resume_eq_slot]; exact hf, ?_⟩
    rw [run_co_await_ready f k self tid w _ hf, hk, run_throw_ok w self tid e hRun.2.1 hlt]
    have hs := store_slot_self w self (.exception e) hlt
    exact ⟨_, rfl, by simp, hs, by rw [consume_eq_slot]; exact hs⟩
  · intro wa wb wc acts1 acts2 hpend hext h1 hstill h2 h3 hnot
    obtain ⟨_, hc, hw⟩ :=
      waiter_delivers f tid { promise := self, resume := k } (.exception e) w wa wb wc
        acts1 acts2 hext h1 hstill h2 h3 hnot
    have hInvc : Inv wc :=
      exec_inv_of acts2 wb wc
        (step_inv_of _ wa wb
          (exec_inv_of acts1 _ wa (inv_suspend w self f tid k hInv hRun) h1) h2) h3
    have hH : Holds w.threads.length f { promise := self, resume := k } wc :=
      exec_closed _ (closed_holds _ f _) acts2 wb wc h3
        (step_closed _ (closed_holds _ f _) _ wa wb h2
          (exec_closed _ (closed_holds _ f _) acts1 _ wa h1 (holds_suspend f tid _ w)))
    obtain ⟨th, hth, _, hcont⟩ := hH
    obtain ⟨th1, hth1, hfin⟩ := hnot
    rw [hth] at hth1
    simp only [Option.some.injEq] at hth1
    subst hth1
    obtain ⟨ho, hs⟩ := hInvc.owned _ th hth hfin
    rw [hcont] at ho hs
    have hltc : self < wc.chans.length := owner_lt wc _ _ ho
    refine ⟨run_co_await_pending f k self tid w hpend,
      by rw [await_resume_eq_slot]; exact hc, ?_⟩
    rw [hw]
    simp only [hk]
    rw [run_throw_ok ((wc.retire w.threads.length).emit (.resume (w.threads.length + 1) self))
      self _ e hs hltc]
    have hsd := store_slot_self
      ((wc.retire w.threads.length).emit (.resume (w.threads.length + 1) self)) self
      (.exception e) hltc
    exact ⟨_, rfl, by simp, hsd, by rw [consume_eq_slot]; exact hsd⟩
  · intro kk hkk
    have hnone : (get_return_object w).2.slot w.chans.length = none := by
      rw [gro_slot]
      exact slot_ge w _ (Nat.le_refl _)
    have hinner := run_throw_ok (get_return_object w).2 w.chans.length tid e hnone (by simp)
    have hready : ((((get_return_object w).2.store w.chans.length (.exception e)).emit
        (.set_exception w.chans.length e)).emit (.finished w.chans.length)).slot
        w.chans.length = some (.exception e) := store_slot_self _ _ _ (by simp)
    have hself : ((((get_return_object w).2.store w.chans.length (.exception e)).emit
        (.set_exception w.chans.length e)).emit (.finished w.chans.length)).slot self =
        none := by
      rw [emit_slot, emit_slot, store_slot_ne _ _ self _ (Nat.ne_of_lt hlt), gro_slot]
      exact hRun.2.1
    rw [run_call, hinner, Option.some_bind, run_co_await_ready _ _ self tid _ _ hready, hkk,
      run_throw_ok _ self tid e hself (by simp; omega)]
    have hs := store_slot_self
      ((((get_return_object w).2.store w.chans.length (.exception e)).emit
        (.set_exception w.chans.length e)).emit (.finished w.chans.length)) self
      (.exception e) (by simp; omega)
    refine ⟨_, rfl, by simp, ?_, hs, by rw [consume_eq_slot]; exact hs⟩
    rw [emit_slot, emit_slot, store_slot_ne _ self _ _ (Nat.ne_of_gt hlt)]
    exact hready

theorem unhandled_failure_reaches_consumer_witness :
    (forward (Outcome.exception (Exc.user "boom") : Outcome Int String) =
        .throw (.user "boom") ∧
      Inv sampleFailed ∧ Running sampleFailed 1 ∧
      sampleFailed.slot 0 = some (.exception (.user "boom"))) ∧
    (await_resume 0 sampleFailed = some (.exception (.user "boom")) ∧
      ∃ w1, run (.co_await 0 forward) 1 0 sampleFailed = some w1 ∧
        w1.log = sampleFailed.log ++ [.set_exception 1 (.user "boom"), .finished 1] ∧
        w1.slot 1 = some (.exception (.user "boom")) ∧
        consume 1 w1 = some (.exception (.user "boom"))) :=
  ⟨⟨rfl, inv_sampleFailed, running_sampleFailed, rfl⟩,
    (unhandled_failure_reaches_consumer 0 1 0 forward (.user "boom") sampleFailed rfl
      inv_sampleFailed running_sampleFailed).1 rfl⟩

end

end Coawait

/-! ## The generator -/

namespace GeneratorDemo

theorem read_alloc (m : Memory) (bytes : List char) :
    (Memory.alloc m bytes).2.read (Memory.alloc m bytes).1 = some bytes := by
  simp [Memory.read, Memory.alloc]

theorem resume_at (m : Memory) (r : Nat) (pre suf : List char) (ch : char)
    (h : m.read r = some (pre ++ ch :: suf)) :
    expolode.resume m { s := r, pos := pre.length } =
      .yielded ch { s := r, pos := (pre ++ [ch]).length } := by
  have hget : (pre ++ ch :: suf)[pre.length]? = some ch := by
    rw [List.getElem?_append_right (Nat.le_refl _)]
    simp
  simp only [expolode.resume, h, hget, List.length_append, List.length_singleton]

theorem resume_end (m : Memory) (r : Nat) (bytes : List char) (h : m.read r = some bytes) :
    expolode.resume m { s := r, pos := bytes.length } = .returned := by
  simp [expolode.resume, h]

theorem pull_at (m : Memory) (r : Nat) (pre suf : List char) (ch : char)
    (h : m.read r = some (pre ++ ch :: suf)) :
    pull expolode.resume m (.suspended { s := r, pos := pre.length }) =
      some (some ch, .suspended { s := r, pos := (pre ++ [ch]).length }) := by
  simp [pull, has_next, next, resume_at m r pre suf ch h]

theorem pull_end (m : Memory) (r : Nat) (bytes : List char) (h : m.read r = some bytes) :
    pull expolode.resume m (.suspended { s := r, pos := bytes.length }) =
      some (none, .done) := by
  simp [pull, has_next, resume_end m r bytes h]

theorem pull_done (m : Memory) :
    pull expolode.resume m (.done : Generator char Frame) = some (none, .done) := rfl

theorem pulls_done (m : Memory) (k : Nat) :
    pulls expolode.resume m k (.done : Generator char Frame) =
      some (List.replicate k none, .done) := by
  induction k with
  | zero => rfl
  | succ k ih => simp [pulls, pull_done, ih, List.replicate_succ]

theorem pulls_step {T F : Type} (resume : Memory → F → Resumed T F) (m : Memory) (n : Nat)
    (g g1 g2 : Generator T F) (x : Option T) (xs : List (Option T))
    (h : pull resume m g = some (x, g1)) (h2 : pulls resume m n g1 = some (xs, g2)) :
    pulls resume m (n + 1) g = some (x :: xs, g2) := by
  simp only [pulls, h, h2]

theorem pulls_from (m : Memory) (r : Nat) (suf : List char) : ∀ (pre : List char) (k : Nat),
    m.read r = some (pre ++ suf) →
    pulls expolode.resume m (suf.length + k + 1) (.suspended { s := r, pos := pre.length }) =
      some (suf.map some ++ List.replicate (k + 1) none, .done) := by
  induction suf with
  | nil =>
    intro pre k h
    rw [List.append_nil] at h
    simp [pulls, pull_end m r pre h, pulls_done, List.replicate_succ]
  | cons ch rest ih =>
    intro pre k h
    have h1 : m.read r = some ((pre ++ [ch]) ++ rest) := by simpa using h
    have hlen : (ch :: rest).length + k + 1 = (rest.length + k + 1) + 1 := by
      simp only [List.length_cons]
      omega
    rw [hlen, pulls_step _ m _ _ _ _ _ _ (pull_at m r pre rest ch h) (ih (pre ++ [ch]) k h1)]
    simp

theorem forEach_from (m : Memory) (r : Nat) (suf : List char) :
    ∀ (pre out : List char) (fuel : Nat), m.read r = some (pre ++ suf) → suf.length < fuel →
    forEach m fuel (.suspended { s := r, pos := pre.length }) out = .finished (out ++ suf) := by
  induction suf with
  | nil =>
    intro pre out fuel h hf
    rw [List.append_nil] at h
    cases fuel with
    | zero => exact absurd hf (by simp)
    | succ n => simp [forEach, pull_end m r pre h]
  | cons ch rest ih =>
    intro pre out fuel h hf
    have h1 : m.read r = some ((pre ++ [ch]) ++ rest) := by simpa using h
    cases fuel with
    | zero => exact absurd hf (by simp)
    | succ n =>
      simp only [forEach, pull_at m r pre rest ch h]
      rw [ih (pre ++ [ch]) (out ++ [ch]) n h1 (by simpa using hf)]
      simp

/-- As long as the string behind the reference is alive, `expolode` yields its
bytes in order, one per step, then signals exhaustion and stays exhausted, and a
loop with enough iterations ends with exactly these bytes as output. -/
theorem expolode_live_string (m : Memory) (r : Nat) (bytes : List char) (k : Nat)
    (h : m.read r = some bytes) :
    pulls expolode.resume m (bytes.length + k + 1) (expolode r) =
      some (bytes.map some ++ List.replicate (k + 1) none, .done) ∧
    (∀ fuel, bytes.length < fuel → forEach m fuel (expolode r) [] = .finished bytes) := by
  refine ⟨pulls_from m r bytes [] k (by simpa using h), ?_⟩
  intro fuel hf
  have := forEach_from m r bytes [] [] fuel (by simpa using h) hf
  simpa using this

/-- C9 (the code differs): `main` of `main.cpp` passes a temporary string to
`expolode`, which keeps a reference to it.  When the loop first resumes the
generator the temporary is already destroyed: the resumption is undefined
behaviour and nothing has been printed, whatever the number of iterations
allowed.  The loop itself is right: over a named string that outlives it, the
same loop prints `h`, `e`, `l`, `l`, `o` and ends, seven steps give these five
bytes and then exhaustion twice, and the generator is left done. -/
theorem main_resumes_after_temporary_destroyed (fuel : Nat) :
    main (fuel + 1) = Exit.undefined [] ∧
    has_next expolode.resume ((Memory.alloc [] hello).2.destroy (Memory.alloc [] hello).1)
      (expolode (Memory.alloc [] hello).1) = none ∧
    mainNamed (fuel + 6) = Exit.finished hello ∧
    pulls expolode.resume (Memory.alloc [] hello).2 7 (expolode (Memory.alloc [] hello).1) =
      some ([some 104, some 101, some 108, some 108, some 111, none, none], .done) := by
  refine ⟨rfl, rfl, ?_, rfl⟩
  exact (expolode_live_string (Memory.alloc [] hello).2 (Memory.alloc [] hello).1 hello 0
    (read_alloc [] hello)).2 (fuel + 6) (by simp [hello])

end GeneratorDemo
